import Mathlib

/-!
Verification development for the web2pdf document-normalization pipeline
(`agent.py`): metadata extraction, image localization (`download_images`)
and the markup-sanitization rule sequence (`insert_metadata`).

The Python code works by applying `re`-module regular expressions to
document text.  We embed the exact regular expressions used by the source
as sequences of pattern elements and give them Python's leftmost,
greedy-with-backtracking matching semantics (`seqMatch`), together with
`re.sub`-style global substitution (`reSubL`) and `re.findall`-style
scanning (`reFindL`).  All definitions are executable by structural
recursion so concrete runs evaluate inside the kernel.
-/

set_option maxRecDepth 100000

namespace Web2pdf

/-- Printable-ASCII test used by `re.sub(r"[^\x20-\x7E]", "", ...)` in
`extract_metadata` (agent.py lines 41-42): keep characters 0x20..0x7E. -/
def printableChar (c : Char) : Bool :=
  decide (0x20 ≤ c.toNat) && decide (c.toNat ≤ 0x7E)

/-- Python `str.strip()` whitespace (ASCII part; the inputs considered in
this development are ASCII). -/
def pySpaceChar (c : Char) : Bool :=
  c == ' ' || c == '\t' || c == '\n' || c == '\r' || c == '\x0b' || c == '\x0c'

/-- Strip leading Python whitespace. -/
def stripL (l : List Char) : List Char := l.dropWhile pySpaceChar

/-- Strip trailing Python whitespace. -/
def stripR (l : List Char) : List Char := (l.reverse.dropWhile pySpaceChar).reverse

/-- Python `str.strip()`. -/
def pyStrip (s : String) : String := String.mk (stripR (stripL s.toList))

/-- `re.sub(r"[^\x20-\x7E]", "", s)`: a single-character negated class
replaced by the empty string deletes exactly the non-printable characters,
i.e. it is the filter keeping printable ASCII. -/
def printableFilter (s : String) : String := String.mk (s.toList.filter printableChar)

/-- Is the first list a prefix of the second?  (Same function as
`List.isPrefixOf`, but recursing on the pattern first so that it reduces
definitionally when the pattern is concrete and the text symbolic.) -/
def litPref : List Char → List Char → Bool
  | [], _ => true
  | _ :: _, [] => false
  | a :: as, b :: bs => a == b && litPref as bs

/-- Python `s.startswith(pre)`. -/
def pyStartsWith (pre s : String) : Bool := litPref pre.toList s.toList

/-- ASCII `str.lower()` (the strings it is applied to here are ASCII). -/
def asciiLowerChar (c : Char) : Char :=
  if 'A' ≤ c && c ≤ 'Z' then Char.ofNat (c.toNat + 32) else c

/-- ASCII `str.lower()` on strings. -/
def asciiLower (s : String) : String := String.mk (s.toList.map asciiLowerChar)

/-- First index at which `pat` occurs in a list (Python `str.find`). -/
def findSeqIdx (pat : List Char) : List Char → Option Nat
  | [] => if pat = [] then some 0 else none
  | c :: t => if litPref pat (c :: t) then some 0 else (findSeqIdx pat t).map (· + 1)

/-- Last index at which `pat` occurs in a list (Python `str.rfind`). -/
def lastSeqIdx (pat : List Char) : List Char → Option Nat
  | [] => none
  | c :: t =>
    match lastSeqIdx pat t with
    | some j => some (j + 1)
    | none => if litPref pat (c :: t) then some 0 else none

/-- Does `pat` occur as a contiguous subsequence? -/
def containsSeq (pat l : List Char) : Bool := (findSeqIdx pat l).isSome

/-! ## The regular-expression engine

Each of the regexes in `agent.py` is a sequence of: string literals,
single characters from a class (`[...]`), greedy starred classes
(`[...]*`), greedy starred capture groups (`([...]*)`), and (in the
figure rule) lazy `.*?` under `re.DOTALL`.  `seqMatch` implements
anchored matching with Python's backtracking semantics: a greedy star
tries the longest class run first and backs off, a lazy star tries the
shortest first and extends. -/

inductive RElem where
  | lit : List Char → RElem
  | one : (Char → Bool) → RElem
  | cls : (Char → Bool) → RElem
  | grp : (Char → Bool) → RElem
  | lazyDot : RElem

/-- Length of the maximal run of class characters at the head. -/
def runLen (p : Char → Bool) (s : List Char) : Nat := (s.takeWhile p).length

/-- Greedy backtracking: try dropping `i` characters, then `i-1`, ... `0`,
returning the first drop at which the continuation matches. -/
def tryDrops (cont : List Char → Option (Nat × List (List Char))) (s : List Char) :
    Nat → Option (Nat × Nat × List (List Char))
  | 0 => (cont s).map (fun r => (0, r.1, r.2))
  | i + 1 =>
    match cont (s.drop (i + 1)) with
    | some r => some (i + 1, r.1, r.2)
    | none => tryDrops cont s i

/-- Lazy matching for `.*?`: try dropping `i` characters, then `i+1`, ...
(`fuel` bounds the number of attempts). -/
def lazyDrops (cont : List Char → Option (Nat × List (List Char))) (s : List Char) :
    Nat → Nat → Option (Nat × Nat × List (List Char))
  | _, 0 => none
  | i, fuel + 1 =>
    match cont (s.drop i) with
    | some r => some (i, r.1, r.2)
    | none => lazyDrops cont s (i + 1) fuel

/-- Anchored match of a pattern-element sequence at the head of the input.
Returns the number of characters consumed and the captured groups in
order. -/
def seqMatch : List RElem → List Char → Option (Nat × List (List Char))
  | [] => fun _ => some (0, [])
  | .lit l :: ps => fun s =>
      if litPref l s then (seqMatch ps (s.drop l.length)).map (fun r => (l.length + r.1, r.2))
      else none
  | .one p :: ps => fun s =>
      match s with
      | [] => none
      | c :: t => if p c then (seqMatch ps t).map (fun r => (1 + r.1, r.2)) else none
  | .cls p :: ps => fun s =>
      (tryDrops (seqMatch ps) s (runLen p s)).map (fun r => (r.1 + r.2.1, r.2.2))
  | .grp p :: ps => fun s =>
      (tryDrops (seqMatch ps) s (runLen p s)).map (fun r => (r.1 + r.2.1, s.take r.1 :: r.2.2))
  | .lazyDot :: ps => fun s =>
      (lazyDrops (seqMatch ps) s 0 (s.length + 1)).map (fun r => (r.1 + r.2.1, r.2.2))

/-- One pass of `re.sub`: scan left to right, at each position try an
anchored match; on success emit the replacement (a function of the whole
match and its groups) and continue after the match, otherwise copy one
character.  `fuel` only serves termination; it is always called with
`fuel ≥ length` so the zero-fuel branch is unreachable.  (Our patterns
never produce zero-width matches: each contains a nonempty literal.) -/
def subLoopF (ps : List RElem) (f : List Char → List (List Char) → List Char) :
    Nat → List Char → List Char
  | 0, s => s
  | fuel + 1, s =>
    match s with
    | [] => []
    | c :: t =>
      match seqMatch ps s with
      | some r =>
        if 0 < r.1 then f (s.take r.1) r.2 ++ subLoopF ps f fuel (s.drop r.1)
        else c :: subLoopF ps f fuel t
      | none => c :: subLoopF ps f fuel t

/-- `re.sub(pattern, f, s)` on character lists. -/
def reSubL (ps : List RElem) (f : List Char → List (List Char) → List Char)
    (s : List Char) : List Char := subLoopF ps f s.length s

/-- Scan part of `re.findall`: the group tuples of all non-overlapping
leftmost matches. -/
def findLoopF (ps : List RElem) : Nat → List Char → List (List (List Char))
  | 0, _ => []
  | fuel + 1, s =>
    match s with
    | [] => []
    | _ :: t =>
      match seqMatch ps s with
      | some r =>
        if 0 < r.1 then r.2 :: findLoopF ps fuel (s.drop r.1)
        else findLoopF ps fuel t
      | none => findLoopF ps fuel t

/-- `re.findall(pattern, s)` on character lists. -/
def reFindL (ps : List RElem) (s : List Char) : List (List (List Char)) :=
  findLoopF ps s.length s

/-! ## The patterns of agent.py -/

/-- `<img[^>]*src="([^"]*)"[^>]*alt="([^"]*)"[^>]*>` (agent.py lines 63 and 165). -/
def P_img : List RElem :=
  [.lit ("<img".toList), .cls (fun c => c != '>'), .lit ("src=\"".toList),
   .grp (fun c => c != '"'), .lit ("\"".toList), .cls (fun c => c != '>'),
   .lit ("alt=\"".toList), .grp (fun c => c != '"'), .lit ("\"".toList),
   .cls (fun c => c != '>'), .lit (">".toList)]

/-- `<figure[^>]*>.*?<img[^>]*src="([^"]*)"[^>]*alt="([^"]*)"[^>]*>.*?</figure>`
with `re.DOTALL` (agent.py line 169). -/
def P_figure : List RElem :=
  [.lit ("<figure".toList), .cls (fun c => c != '>'), .lit (">".toList), .lazyDot,
   .lit ("<img".toList), .cls (fun c => c != '>'), .lit ("src=\"".toList),
   .grp (fun c => c != '"'), .lit ("\"".toList), .cls (fun c => c != '>'),
   .lit ("alt=\"".toList), .grp (fun c => c != '"'), .lit ("\"".toList),
   .cls (fun c => c != '>'), .lit (">".toList), .lazyDot, .lit ("</figure>".toList)]

/-- Class `[^\s)]` used in the PDF-link rule. -/
def noSpParen (c : Char) : Bool := !(pySpaceChar c || c == ')')

/-- `!\[[^\]]*\]\([^\s)]+\.pdf[^\)]*\)` (agent.py line 140). -/
def P_pdf : List RElem :=
  [.lit ("![".toList), .cls (fun c => c != ']'), .lit ("](".toList),
   .one noSpParen, .cls noSpParen, .lit (".pdf".toList),
   .cls (fun c => c != ')'), .lit (")".toList)]

/-- `!\[[^\]]*\]\(data:image/[^)]*\)` (agent.py line 144). -/
def P_data : List RElem :=
  [.lit ("![".toList), .cls (fun c => c != ']'), .lit ("](data:image/".toList),
   .cls (fun c => c != ')'), .lit (")".toList)]

/-- `!\[[^\]]*\]\(/_next/image/[^)]*\)` (agent.py line 147). -/
def P_next : List RElem :=
  [.lit ("![".toList), .cls (fun c => c != ']'), .lit ("](/_next/image/".toList),
   .cls (fun c => c != ')'), .lit (")".toList)]

/-- `\{rel="[^"]*"\}` (agent.py line 177; the capture group around the whole
pattern does not affect matching or the constant replacement). -/
def P_rel : List RElem :=
  [.lit ("\x7brel=\"".toList), .cls (fun c => c != '"'), .lit ("\"\x7d".toList)]

/-- Class `[^&\)\s]` used by the tracking-parameter rules. -/
def noAmpParenSp (c : Char) : Bool := !(c == '&' || c == ')' || pySpaceChar c)

/-- `_hsenc=[^&\)\s]*` (agent.py line 178). -/
def P_hsenc : List RElem := [.lit ("_hsenc=".toList), .cls noAmpParenSp]

/-- `\?utm_[^&\)\s]*` (agent.py line 179). -/
def P_qutm : List RElem := [.lit ("?utm_".toList), .cls noAmpParenSp]

/-- `&utm_[^&\)\s]*` (agent.py line 180). -/
def P_autm : List RElem := [.lit ("&utm_".toList), .cls noAmpParenSp]

/-- `&&+` (agent.py line 183): two ampersands then one-or-more is the same
greedy language as two then zero-or-more. -/
def P_amp : List RElem := [.lit ("&&".toList), .cls (fun c => c == '&')]

/-- `&\)` (agent.py line 184). -/
def P_ampP : List RElem := [.lit ("&)".toList)]

/-- `\?\)` (agent.py line 185). -/
def P_qP : List RElem := [.lit ("?)".toList)]

/-- `\{[^}]*\}` (agent.py line 188). -/
def P_brace : List RElem :=
  [.lit ("\x7b".toList), .cls (fun c => c != '\x7d'), .lit ("\x7d".toList)]

/-- `target="_blank"[^)]*` (agent.py line 189). -/
def P_target : List RElem := [.lit ("target=\"_blank\"".toList), .cls (fun c => c != ')')]

/-- `:::+[^:]*:::+` (agent.py line 192; `re.DOTALL` only affects `.`, absent
here).  `:::+` is three literal colons then a greedy colon star. -/
def P_c3 : List RElem :=
  [.lit (":::".toList), .cls (fun c => c == ':'), .cls (fun c => c != ':'),
   .lit (":::".toList), .cls (fun c => c == ':')]

/-- `::+[^:]*::+` (agent.py line 193). -/
def P_c2x : List RElem :=
  [.lit ("::".toList), .cls (fun c => c == ':'), .cls (fun c => c != ':'),
   .lit ("::".toList), .cls (fun c => c == ':')]

/-! ## download_images (agent.py lines 52-129)

Network fetches and file writes are modelled by an oracle `ok : Nat → Bool`
telling whether the body of the `try` block succeeds at loop iteration `i`
(on failure the `except` branch records the placeholder).  The GIF
re-encoding (lines 91-112) writes image bytes but produces the same
descriptor either way, so it needs no separate modelling. -/

/-- The asset descriptor dict value (agent.py lines 118-122 / 127). -/
structure ImgInfo where
  path : String
  alt : String
  filename : String
deriving DecidableEq, Repr

/-- Python dict insertion: overwrite in place if the key exists, else
append (insertion order preserved). -/
def dictInsert (d : List (String × ImgInfo)) (k : String) (v : ImgInfo) :
    List (String × ImgInfo) :=
  match d with
  | [] => [(k, v)]
  | (k', v') :: t => if k' = k then (k, v) :: t else (k', v') :: dictInsert t k v

/-- Python dict lookup. -/
def lookupD (d : List (String × ImgInfo)) (k : String) : Option ImgInfo :=
  (d.find? (fun e => e.1 == k)).map (·.2)

/-- Modelled `urlparse(url).path` for locators of the usual
`scheme://host/path[?query][#fragment]` shape (when no `://` is present the
whole locator up to any query/fragment is taken as the path). -/
def urlPath (url : String) : List Char :=
  let cs := url.toList
  let notQF : Char → Bool := fun c => c != '?' && c != '#'
  match findSeqIdx ("://".toList) cs with
  | some i =>
    let rest := (cs.drop (i + 3)).takeWhile notQF
    match findSeqIdx ("/".toList) rest with
    | some j => rest.drop j
    | none => []
  | none => cs.takeWhile notQF

/-- `Path(name).suffix` of a final path component: the part from the last
dot, unless the dot is leading or trailing. -/
def pySuffix (path : List Char) : List Char :=
  let name := (path.reverse.takeWhile (fun c => c != '/')).reverse
  match (lastSeqIdx (".".toList) name) with
  | some i => if 0 < i ∧ i + 1 < name.length then name.drop i else []
  | none => []

/-- `ext = Path(parsed_url.path).suffix or ".jpg"` followed by the GIF
coercion `if ext.lower() == '.gif': ext = '.jpg'` (agent.py lines 73-79). -/
def extFor (url : String) : String :=
  let ext := String.mk (pySuffix (urlPath url))
  let ext := if ext = "" then ".jpg" else ext
  if asciiLower ext = ".gif" then ".jpg" else ext

/-- Descriptor recorded on success (agent.py lines 83, 118-122): note the
sequence number is `i+1` for `i` the index in `enumerate(images)`, i.e. the
position among all scan hits. -/
def successInfo (slug : String) (i : Nat) (url alt : String) : ImgInfo :=
  let filename := slug ++ "_image_" ++ toString (i + 1) ++ extFor url
  { path := "img/" ++ filename, alt := alt, filename := filename }

/-- Placeholder descriptor recorded on failure (agent.py line 127). -/
def placeholderInfo (alt : String) : ImgInfo :=
  { path := "example-image-a", alt := alt, filename := "example-image-a" }

/-- The loop of `download_images` over `enumerate(images)` (agent.py
lines 68-127). -/
def processHits (slug : String) (ok : Nat → Bool) :
    List (Nat × String × String) → List (String × ImgInfo) → List (String × ImgInfo)
  | [], d => d
  | (i, url, alt) :: rest, d =>
    if pyStartsWith "http" url then
      if ok i then processHits slug ok rest (dictInsert d url (successInfo slug i url alt))
      else processHits slug ok rest (dictInsert d url (placeholderInfo alt))
    else processHits slug ok rest d

/-- `re.findall(image_pattern, content)` as (url, alt) pairs (agent.py
lines 63-64). -/
def imgFindall (content : String) : List (String × String) :=
  (reFindL P_img content.toList).map
    (fun gs => (String.mk (gs.getD 0 []), String.mk (gs.getD 1 [])))

/-- `download_images` (agent.py lines 52-129) as a mapping from locator to
descriptor, given the converted text, the slug and the success oracle. -/
def download_images (content slug : String) (ok : Nat → Bool) : List (String × ImgInfo) :=
  processHits slug ok (imgFindall content).enum []

/-! ## insert_metadata (agent.py lines 132-197) -/

/-- `replace_figure` (agent.py lines 152-162): `groups` are the two captured
groups of the image pattern. -/
def replace_figure (dl : List (String × ImgInfo)) (groups : List (List Char)) : List Char :=
  let img_url := String.mk (groups.getD 0 [])
  let alt_text := groups.getD 1 []
  match lookupD dl img_url with
  | some info =>
    if info.filename = "example-image-a" then
      ("![".toList) ++ alt_text ++ ("](example-image-a)".toList)
    else
      ("![".toList) ++ alt_text ++ ("](".toList) ++ info.path.toList ++ (")".toList)
  | none => ("[Image: ".toList) ++ alt_text ++ ("]".toList)

/-- The PDF-link replacement lambda (agent.py line 140):
`"[PDF link](" + m.group(0).split("](")[-1].rstrip(")") + ")"`. -/
def pdfRepl (whole : List Char) (_ : List (List Char)) : List Char :=
  let tail :=
    match lastSeqIdx ("](".toList) whole with
    | some i => whole.drop (i + 2)
    | none => whole
  let target := (tail.reverse.dropWhile (fun c => c == ')')).reverse
  ("[PDF link](".toList) ++ target ++ (")".toList)

/-- Rules 1-7 of the sanitizer: everything `insert_metadata` does to the
document body (agent.py lines 139-193), in source order.  `dl = none`
models `downloaded_images=None`; the image-substitution rules run only if
the mapping is a nonempty dict (`if downloaded_images:`). -/
def rules1to7 (dl : Option (List (String × ImgInfo))) (content : String) : String :=
  let c := content.toList
  let c := reSubL P_pdf pdfRepl c
  let c := reSubL P_data (fun _ _ => "[Image]".toList) c
  let c := reSubL P_next (fun _ _ => "[Image]".toList) c
  let c :=
    match dl with
    | some d =>
      if d.isEmpty then c
      else
        let c := reSubL P_img (fun _ gs => replace_figure d gs) c
        reSubL P_figure (fun _ gs => replace_figure d gs) c
    | none => c
  let c := reSubL P_rel (fun _ _ => []) c
  let c := reSubL P_hsenc (fun _ _ => []) c
  let c := reSubL P_qutm (fun _ _ => []) c
  let c := reSubL P_autm (fun _ _ => []) c
  let c := reSubL P_amp (fun _ _ => "&".toList) c
  let c := reSubL P_ampP (fun _ _ => ")".toList) c
  let c := reSubL P_qP (fun _ _ => ")".toList) c
  let c := reSubL P_brace (fun _ _ => []) c
  let c := reSubL P_target (fun _ _ => []) c
  let c := reSubL P_c3 (fun _ _ => []) c
  let c := reSubL P_c2x (fun _ _ => []) c
  String.mk c

/-- The metadata record passed to `insert_metadata` (agent.py line 282). -/
structure Metadata where
  title : String
  author : String
  url : String
  editor : String
  date : String
deriving DecidableEq, Repr

/-! ### PyYAML scalar rendering

`yaml.dump` (PyYAML 6, default `Dumper`) does not emit every string value
as a plain `key: value` scalar: the emitter quotes a value whenever the
plain form would be re-read as a different type (resolver.py implicit
patterns: booleans, integers, floats, null words, timestamps, `<<`, `=`,
`!`/`&`/`*`) or carries YAML indicators (emitter.py `analyze_scalar`), and
single-quoting doubles embedded apostrophes.  The repository's own test
pins `date: '2025-08-05'`.  The model below reproduces this decision for
single-line printable-ASCII scalars short enough not to be line-folded at
the default width 80; `yamlSafe` delimits that class, and the C8 theorem
is stated under it. -/

/-- Decimal digit. -/
def isDig (c : Char) : Bool := decide ('0' ≤ c) && decide (c ≤ '9')

/-- Digit or underscore (PyYAML number tokens allow `_`). -/
def isDigU (c : Char) : Bool := isDig c || c == '_'

/-- Hexadecimal digit or underscore. -/
def isHexU (c : Char) : Bool :=
  isDig c || (decide ('a' ≤ c) && decide (c ≤ 'f')) ||
  (decide ('A' ≤ c) && decide (c ≤ 'F')) || c == '_'

/-- Octal digit or underscore. -/
def isOctU (c : Char) : Bool := (decide ('0' ≤ c) && decide (c ≤ '7')) || c == '_'

/-- Binary digit or underscore. -/
def isBinU (c : Char) : Bool := c == '0' || c == '1' || c == '_'

/-- Strip one leading `-`/`+` sign. -/
def stripSign (l : List Char) : List Char :=
  match l with
  | c :: t => if c == '-' || c == '+' then t else c :: t
  | [] => []

/-- Nonempty and all characters satisfy `p`. -/
def many1 (p : Char → Bool) (l : List Char) : Bool := !l.isEmpty && l.all p

/-- Split at `:` separators. -/
def splitColon : List Char → List (List Char)
  | [] => [[]]
  | ':' :: t => [] :: splitColon t
  | c :: t =>
    match splitColon t with
    | g :: gs => (c :: g) :: gs
    | [] => [[c]]

/-- A sexagesimal group `[0-5]?[0-9]`. -/
def sexGroup (g : List Char) : Bool :=
  match g with
  | [d] => isDig d
  | [h, d] => decide ('0' ≤ h) && decide (h ≤ '5') && isDig d
  | _ => false

/-- PyYAML implicit integer pattern (resolver.py): binary, octal, hex,
decimal or sexagesimal, with optional sign and embedded underscores. -/
def yamlIntTok (s : List Char) : Bool :=
  match stripSign s with
  | [] => false
  | '0' :: t =>
    (match t with
     | 'b' :: r => many1 isBinU r
     | 'x' :: r => many1 isHexU r
     | _ => t.isEmpty || t.all isOctU)
  | c :: t =>
    isDig c &&
    (t.all isDigU ||
     (match splitColon (c :: t) with
      | s0 :: g :: gs => s0.all isDigU && (g :: gs).all sexGroup
      | _ => false))

/-- A full exponent `[eE][-+][0-9]+`. -/
def expPart (l : List Char) : Bool :=
  match l with
  | e :: g :: t => (e == 'e' || e == 'E') && (g == '+' || g == '-') && many1 isDig t
  | _ => false

/-- `[0-9_]*` then an optional exponent. -/
def digitsThenExpOpt (l : List Char) : Bool :=
  let r := l.dropWhile isDigU
  r.isEmpty || expPart r

/-- Final sexagesimal segment `[0-5]?[0-9]` followed by `.[0-9_]*`. -/
def lastSexDot (g : List Char) : Bool :=
  let pre := g.takeWhile (fun c => c != '.')
  match g.drop pre.length with
  | '.' :: r => sexGroup pre && r.all isDigU
  | _ => false

/-- PyYAML implicit float pattern (resolver.py): decimal with dot and
optional signed exponent, leading-dot form, sexagesimal-with-dot form,
and the `.inf`/`.nan` words. -/
def yamlFloatTok (s : List Char) : Bool :=
  let b := stripSign s
  (b == ".inf".toList || b == ".Inf".toList || b == ".INF".toList) ||
  (s == ".nan".toList || s == ".NaN".toList || s == ".NAN".toList) ||
  (match s with
   | '.' :: d :: t => isDig d && digitsThenExpOpt t
   | _ => false) ||
  (match b with
   | d :: t =>
     isDig d &&
     ((match t.dropWhile isDigU with
       | '.' :: r => digitsThenExpOpt r
       | _ => false) ||
      (match splitColon (d :: t) with
       | s0 :: g :: gs =>
         (match s0 with
          | d0 :: t0 => isDig d0 && t0.all isDigU
          | [] => false) &&
         (g :: gs).dropLast.all sexGroup &&
         (match (g :: gs).getLast? with
          | some gk => lastSexDot gk
          | none => false)
       | _ => false))
   | [] => false)

/-- Consume four digits. -/
def p4digits : List Char → Option (List Char)
  | a :: b :: c :: d :: t =>
    if isDig a && isDig b && isDig c && isDig d then some t else none
  | _ => none

/-- Consume `[0-9][0-9]?` greedily (the following character is never a
digit in the timestamp pattern, so this equals the regex). -/
def p12 : List Char → Option (List Char)
  | a :: b :: t => if isDig a then (if isDig b then some t else some (b :: t)) else none
  | [a] => if isDig a then some [] else none
  | [] => none

/-- Consume exactly two digits. -/
def p2 : List Char → Option (List Char)
  | a :: b :: t => if isDig a && isDig b then some t else none
  | _ => none

/-- Consume `-`. -/
def pdash : List Char → Option (List Char)
  | '-' :: t => some t
  | _ => none

/-- Consume `:`. -/
def pcolon : List Char → Option (List Char)
  | ':' :: t => some t
  | _ => none

/-- Consume the date/time separator `[Tt]` or `[ \t]+`. -/
def psep : List Char → Option (List Char)
  | 'T' :: t => some t
  | 't' :: t => some t
  | ' ' :: t => some (t.dropWhile (fun c => c == ' ' || c == '\t'))
  | '\t' :: t => some (t.dropWhile (fun c => c == ' ' || c == '\t'))
  | _ => none

/-- Consume an optional fraction `.[0-9]*`. -/
def pfrac (l : List Char) : List Char :=
  match l with
  | '.' :: t => t.dropWhile isDig
  | _ => l

/-- Accept the optional timezone tail `([ \t]*(Z|[-+][0-9][0-9]?(:[0-9][0-9])?))?`
followed by end of string. -/
def ptz (l : List Char) : Bool :=
  match l with
  | [] => true
  | _ =>
    match l.dropWhile (fun c => c == ' ' || c == '\t') with
    | ['Z'] => true
    | c :: t =>
      (c == '+' || c == '-') &&
      (match p12 t with
       | some [] => true
       | some (':' :: r) => (match p2 r with | some [] => true | _ => false)
       | _ => false)
    | [] => false

/-- Date-only timestamp `[0-9]{4}-[0-9]{2}-[0-9]{2}`. -/
def ts1 (l : List Char) : Bool :=
  match l with
  | [y1, y2, y3, y4, '-', m1, m2, '-', d1, d2] =>
    isDig y1 && isDig y2 && isDig y3 && isDig y4 && isDig m1 && isDig m2 &&
    isDig d1 && isDig d2
  | _ => false

/-- Full timestamp form of the resolver pattern. -/
def ts2 (l : List Char) : Bool :=
  match (((((((((p4digits l).bind pdash).bind p12).bind pdash).bind p12).bind
      psep).bind p12).bind pcolon).bind p2).bind pcolon with
  | none => false
  | some r =>
    match p2 r with
    | none => false
    | some r2 => ptz (pfrac r2)

/-- PyYAML implicit timestamp pattern (resolver.py). -/
def yamlTsTok (s : List Char) : Bool := ts1 s || ts2 s

/-- A plain scalar that the resolver would re-read as a non-string type
(bool, null, merge/value/yaml indicators, int, float or timestamp). -/
def yamlNonStr (s : String) : Bool :=
  (["yes", "Yes", "YES", "no", "No", "NO", "true", "True", "TRUE",
    "false", "False", "FALSE", "on", "On", "ON", "off", "Off", "OFF"]).contains s ||
  (["~", "null", "Null", "NULL", ""]).contains s ||
  (["<<", "=", "!", "&", "*"]).contains s ||
  yamlIntTok s.toList || yamlFloatTok s.toList || yamlTsTok s.toList

/-- Leading characters that bar the plain style (emitter.py
`analyze_scalar`). -/
def leadInd (c : Char) : Bool := ("#,[]\x7b\x7d&*!|>'\"%@`".toList).contains c

/-- Non-leading block indicators: `:` followed by whitespace or end, or
`#` preceded by whitespace. -/
def bodyInd : List Char → Bool
  | ':' :: t =>
    (match t with
     | [] => true
     | c :: _ => c == ' ' || c == '\t') || bodyInd t
  | ' ' :: '#' :: _ => true
  | '\t' :: '#' :: _ => true
  | _ :: t => bodyInd t
  | [] => false

/-- Block-context indicator analysis of a single-line scalar (emitter.py
`analyze_scalar`, document-indicator and indicator checks). -/
def blockIndicators (l : List Char) : Bool :=
  litPref ("---".toList) l || litPref ("...".toList) l ||
  (match l with
   | [] => false
   | c :: t =>
     leadInd c ||
     ((c == '?' || c == ':' || c == '-') &&
      (match t with
       | [] => true
       | d :: _ => d == ' ' || d == '\t')) ||
     bodyInd t)

/-- The emitter writes the scalar plain iff it stays a string under the
implicit resolver and the analysis allows the block-plain style. -/
def yamlPlain (s : String) : Bool :=
  !s.toList.isEmpty && !(s.toList.head? == some ' ') && !(s.toList.getLast? == some ' ') &&
  !blockIndicators s.toList && !yamlNonStr s

/-- Single-quoted escaping: double every apostrophe (code point 39). -/
def sqEsc : List Char → List Char
  | [] => []
  | c :: t => if c.toNat = 39 then c :: c :: sqEsc t else c :: sqEsc t

/-- One scalar as `yaml.dump` renders it: plain when allowed, else
single-quoted. -/
def yamlScalar (s : String) : String :=
  if yamlPlain s then s
  else String.mk (Char.ofNat 39 :: (sqEsc s.toList ++ [Char.ofNat 39]))

/-- The class of values on which this scalar model is exact: single-line
printable ASCII, and short enough (or space-free) never to be folded at
the emitter's default width. -/
def yamlSafe (s : String) : Bool :=
  s.toList.all printableChar &&
  (decide (s.toList.length ≤ 64) || !(s.toList.contains ' '))

/-- All five fields of a record lie in the modelled class. -/
def yamlSafeMeta (m : Metadata) : Bool :=
  yamlSafe m.title && yamlSafe m.author && yamlSafe m.url &&
  yamlSafe m.editor && yamlSafe m.date

/-- Modelled `yaml.dump(metadata)`: PyYAML's default `sort_keys=True`
emits one `key: value` line per entry with the keys in alphabetical order
and each value rendered by `yamlScalar`. -/
def yamlDump (m : Metadata) : String :=
  "author: " ++ yamlScalar m.author ++ "\n" ++ "date: " ++ yamlScalar m.date ++ "\n" ++
  "editor: " ++ yamlScalar m.editor ++ "\n" ++ "title: " ++ yamlScalar m.title ++ "\n" ++
  "url: " ++ yamlScalar m.url ++ "\n"

/-- `insert_metadata` (agent.py lines 132-197): sanitize the body with
rules 1-7, then write `"---\n" + yaml.dump(metadata) + "---\n"` followed by
a blank line and the body. -/
def insert_metadata (content : String) (m : Metadata)
    (dl : Option (List (String × ImgInfo))) : String :=
  "---\n" ++ yamlDump m ++ "---\n" ++ "\n" ++ rules1to7 dl content

/-! ## extract_metadata (agent.py lines 25-44)

The parsed markup is modelled by the pieces BeautifulSoup delivers to the
code: `soup.title` is absent (`none`), or present with `.string` either
absent (`some none`, e.g. an empty or nested title element, on which
`.strip()` raises `AttributeError`) or a string.  `soup.find("meta",
attrs=...)` is the first meta element whose attribute matches; a found tag
is truthy regardless of its contents (pinned by the repository's own test
`test_extract_metadata_with_title_and_author`). -/

structure MetaTag where
  name : Option String
  property : Option String
  content : Option String
deriving DecidableEq, Repr

structure Soup where
  title : Option (Option String)
  metas : List MetaTag
deriving DecidableEq, Repr

/-- The filter-then-trim cleanup applied to both metadata values
(agent.py lines 41-42). -/
def cleanMeta (s : String) : String := pyStrip (printableFilter s)

/-- The author computation (agent.py lines 33-36): `soup.find(name=author)
or soup.find(property=author)`; the content is used only if present and
non-empty (pre-trim), else the fallback. -/
def authorOf (soup : Soup) : String :=
  let author_meta :=
    (soup.metas.find? (fun t => t.name == some "author")).orElse
      (fun _ => soup.metas.find? (fun t => t.property == some "author"))
  match author_meta with
  | some t =>
    match t.content with
    | some c => if c ≠ "" then pyStrip c else "Unknown Author"
    | none => "Unknown Author"
  | none => "Unknown Author"

/-- `extract_metadata` (agent.py lines 25-44).  `Except.error ()` models the
`AttributeError` raised by `soup.title.string.strip()` when the title
element has no string. -/
def extract_metadata (soup : Soup) : Except Unit (String × String) :=
  match soup.title with
  | none => .ok (cleanMeta "Unknown Title", cleanMeta (authorOf soup))
  | some none => .error ()
  | some (some s) => .ok (cleanMeta (pyStrip s), cleanMeta (authorOf soup))


/-! ## Concrete documents and records used by the claim analyses -/

/-- Document consisting of a single embedded-image tag with no `alt`
attribute. -/
def docNoAlt : String := "<img src=\"https://a.test/b.jpg\">"

/-- A nonempty asset mapping containing the locator of `docNoAlt`. -/
def dlNoAlt : List (String × ImgInfo) :=
  [("https://a.test/b.jpg", ImgInfo.mk "img/s_image_1.jpg" "x" "s_image_1.jpg")]

/-- Sample metadata record for concrete sanitizer runs. -/
def mdSample : Metadata := Metadata.mk "T" "A" "U" "E" "D"

/-- Document with a non-remote image hit before a remote one. -/
def docLocalThenRemote : String :=
  "<img src=\"local.png\" alt=\"L\"><img src=\"https://x.test/b.png\" alt=\"R\">"

/-- The GIF single-image document of the end-to-end scenario. -/
def docGif : String := "<img src=\"https://x.test/a.gif\" alt=\"Cat\">"

/-- Three distinct remote images (the claim scenario in which the middle
loop iteration fails). -/
def docThree : String :=
  "<img src=\"https://a.test/1.png\" alt=\"one\"><img src=\"https://b.test/2.png\" alt=\"two\"><img src=\"https://c.test/3.png\" alt=\"three\">"

/-- Soup whose first author lookup finds a meta element with empty content
while a property=author element carries a real author. -/
def soupEmptyThenProp : Soup :=
  Soup.mk (some (some "T"))
    [MetaTag.mk (some "author") none (some ""), MetaTag.mk none (some "author") (some "X")]


/-- A well-formed embedded-image construct in the canonical
src-before-alt shape. -/
def mkImg (u a : String) : String := "<img src=\"" ++ u ++ "\" alt=\"" ++ a ++ "\">"

/-- An embedded-image tag whose alt attribute precedes src. -/
def tagAltFirst (a u : String) : String := "<img alt=\"" ++ a ++ "\" src=\"" ++ u ++ "\">"

/-- An embedded-image tag with no alt attribute. -/
def tagNoAlt (u : String) : String := "<img src=\"" ++ u ++ "\">"

/-- Attribute values free of the structural characters of the image
pattern (quote, angle brackets, equals). -/
def cleanAttr (l : List Char) : Bool :=
  l.all (fun c => c != '\"' && c != '<' && c != '>' && c != '=')

/-- The asset-substitution step of the sanitizer (agent.py lines 164-173):
the img-tag substitution followed by the figure-block substitution, both
driven by `replace_figure`. -/
def assetSub (d : List (String × ImgInfo)) (c : List Char) : List Char :=
  reSubL P_figure (fun _ gs => replace_figure d gs)
    (reSubL P_img (fun _ gs => replace_figure d gs) c)

/-! ## Derived definitions used by the claim analyses -/

/-- No trigger substring of any of sanitizer rules 1-7 occurs: each rule's
pattern begins with one of these literals, so on such text every rule is
the identity. -/
def sanitizedInert (s : String) : Bool :=
  !(containsSeq ("![".toList) s.toList) && !(containsSeq ("<img".toList) s.toList) &&
  !(containsSeq ("<figure".toList) s.toList) && !(containsSeq ("\x7b".toList) s.toList) &&
  !(containsSeq ("_hsenc=".toList) s.toList) && !(containsSeq ("?utm_".toList) s.toList) &&
  !(containsSeq ("&utm_".toList) s.toList) && !(containsSeq ("&&".toList) s.toList) &&
  !(containsSeq ("&)".toList) s.toList) && !(containsSeq ("?)".toList) s.toList) &&
  !(containsSeq ("target=\"_blank\"".toList) s.toList) &&
  !(containsSeq (":::".toList) s.toList) && !(containsSeq ("::".toList) s.toList) &&
  !(containsSeq ("\x7brel=\"".toList) s.toList)

/-- The scan hits for one locator: (index, alt) of each occurrence. -/
def hitsFor (url : String) (l : List (Nat × String × String)) : List (Nat × String) :=
  l.filterMap (fun h => if h.2.1 = url then some (h.1, h.2.2) else none)

/-- The descriptor the loop body records for occurrence `(i, alt)` of a
remote locator. -/
def descFor (slug : String) (ok : Nat → Bool) (url : String) (h : Nat × String) : ImgInfo :=
  if ok h.1 then successInfo slug h.1 url h.2 else placeholderInfo h.2


/-! # Theorems -/

/-! ## Basic engine lemmas -/

theorem eq_append_of_litPref {l s : List Char} (h : litPref l s = true) :
    s = l ++ s.drop l.length := by
  induction l generalizing s with
  | nil => simp
  | cons a as ih =>
    cases s with
    | nil => simp [litPref] at h
    | cons b bs =>
      simp only [litPref, Bool.and_eq_true, beq_iff_eq] at h
      obtain ⟨rfl, h2⟩ := h
      simpa using ih h2

theorem litPref_length_le {l s : List Char} (h : litPref l s = true) :
    l.length ≤ s.length := by
  induction l generalizing s with
  | nil => simp
  | cons a as ih =>
    cases s with
    | nil => simp [litPref] at h
    | cons b bs =>
      simp only [litPref, Bool.and_eq_true] at h
      simpa using ih h.2

theorem tryDrops_sound {cont : List Char → Option (Nat × List (List Char))} {s : List Char}
    {k i n : Nat} {cs : List (List Char)}
    (h : tryDrops cont s k = some (i, n, cs)) :
    i ≤ k ∧ cont (s.drop i) = some (n, cs) := by
  induction k with
  | zero =>
    simp only [tryDrops, Option.map_eq_some'] at h
    obtain ⟨r, hr, he⟩ := h
    cases he
    exact ⟨Nat.le_refl 0, by simpa using hr⟩
  | succ k ih =>
    simp only [tryDrops] at h
    cases hc : cont (s.drop (k + 1)) with
    | some r =>
      rw [hc] at h
      cases h
      exact ⟨Nat.le_refl _, by simpa using hc⟩
    | none =>
      rw [hc] at h
      obtain ⟨h1, h2⟩ := ih h
      exact ⟨Nat.le_succ_of_le h1, h2⟩

theorem lazyDrops_sound {cont : List Char → Option (Nat × List (List Char))} {s : List Char}
    {fuel i j n : Nat} {cs : List (List Char)}
    (h : lazyDrops cont s i fuel = some (j, n, cs)) :
    i ≤ j ∧ j < i + fuel ∧ cont (s.drop j) = some (n, cs) := by
  induction fuel generalizing i with
  | zero => simp [lazyDrops] at h
  | succ fuel ih =>
    simp only [lazyDrops] at h
    cases hc : cont (s.drop i) with
    | some r =>
      rw [hc] at h
      cases h
      exact ⟨Nat.le_refl _, by omega, by simpa using hc⟩
    | none =>
      rw [hc] at h
      obtain ⟨h1, h1b, h2⟩ := ih h
      exact ⟨Nat.le_of_succ_le h1, by omega, h2⟩

theorem runLen_le (p : Char → Bool) (s : List Char) : runLen p s ≤ s.length := by
  induction s with
  | nil => simp [runLen]
  | cons c t ih =>
    simp only [runLen, List.takeWhile] at *
    cases hpc : p c
    · simp
    · simp only [List.length_cons]
      omega

theorem seqMatch_le {ps : List RElem} {s : List Char} {n : Nat} {cs : List (List Char)}
    (h : seqMatch ps s = some (n, cs)) : n ≤ s.length := by
  induction ps generalizing s n cs with
  | nil => simp [seqMatch] at h; omega
  | cons e ps ih =>
    cases e with
    | lit l =>
      simp only [seqMatch] at h
      by_cases hp : litPref l s
      · rw [if_pos hp, Option.map_eq_some'] at h
        obtain ⟨r, hr, he⟩ := h
        cases he
        have h1 := ih hr
        have h2 := litPref_length_le hp
        simp only [List.length_drop] at h1
        omega
      · rw [if_neg hp] at h; exact absurd h (by simp)
    | one p =>
      cases s with
      | nil => simp [seqMatch] at h
      | cons c t =>
        simp only [seqMatch] at h
        by_cases hp : p c
        · rw [if_pos hp, Option.map_eq_some'] at h
          obtain ⟨r, hr, he⟩ := h
          cases he
          have := ih hr
          simp only [List.length_cons]
          omega
        · rw [if_neg hp] at h; exact absurd h (by simp)
    | cls p =>
      simp only [seqMatch, Option.map_eq_some'] at h
      obtain ⟨⟨i, n', cs'⟩, hr, he⟩ := h
      cases he
      obtain ⟨h1, h2⟩ := tryDrops_sound hr
      have h3 := ih h2
      have h4 := runLen_le p s
      simp only [List.length_drop] at h3
      dsimp only
      omega
    | grp p =>
      simp only [seqMatch, Option.map_eq_some'] at h
      obtain ⟨⟨i, n', cs'⟩, hr, he⟩ := h
      cases he
      obtain ⟨h1, h2⟩ := tryDrops_sound hr
      have h3 := ih h2
      have h4 := runLen_le p s
      simp only [List.length_drop] at h3
      dsimp only
      omega
    | lazyDot =>
      simp only [seqMatch, Option.map_eq_some'] at h
      obtain ⟨⟨i, n', cs'⟩, hr, he⟩ := h
      cases he
      obtain ⟨h1, h1b, h2⟩ := lazyDrops_sound hr
      have h3 := ih h2
      simp only [List.length_drop] at h3
      dsimp only
      omega

theorem subLoopF_congr (ps : List RElem) (f : List Char → List (List Char) → List Char) :
    ∀ (f₁ f₂ : Nat) (s : List Char), s.length ≤ f₁ → s.length ≤ f₂ →
      subLoopF ps f f₁ s = subLoopF ps f f₂ s := by
  intro f₁
  induction f₁ with
  | zero =>
    intro f₂ s h1 h2
    have hs : s = [] := List.length_eq_zero.mp (Nat.le_zero.mp h1)
    subst hs
    cases f₂ <;> simp [subLoopF]
  | succ a ih =>
    intro f₂ s h1 h2
    cases s with
    | nil => cases f₂ <;> simp [subLoopF]
    | cons c t =>
      cases f₂ with
      | zero => simp at h2
      | succ b =>
        simp only [List.length_cons] at h1 h2
        cases hm : seqMatch ps (c :: t) with
        | some r =>
          obtain ⟨n, cs⟩ := r
          have hle : n ≤ (c :: t).length := seqMatch_le hm
          simp only [List.length_cons] at hle
          by_cases hn : 0 < n
          · have hlen : ((c :: t).drop n).length ≤ a := by
              simp only [List.length_drop, List.length_cons]; omega
            have hlen2 : ((c :: t).drop n).length ≤ b := by
              simp only [List.length_drop, List.length_cons]; omega
            simp only [subLoopF, hm, if_pos hn]
            rw [ih b _ hlen hlen2]
          · have hlen : t.length ≤ a := by omega
            have hlen2 : t.length ≤ b := by omega
            simp only [subLoopF, hm, if_neg hn]
            rw [ih b t hlen hlen2]
        | none =>
          have hlen : t.length ≤ a := by omega
          have hlen2 : t.length ≤ b := by omega
          simp only [subLoopF, hm]
          rw [ih b t hlen hlen2]

/-! ## Step and congruence lemmas for substitution and scanning -/

theorem findLoopF_congr (ps : List RElem) :
    ∀ (f₁ f₂ : Nat) (s : List Char), s.length ≤ f₁ → s.length ≤ f₂ →
      findLoopF ps f₁ s = findLoopF ps f₂ s := by
  intro f₁
  induction f₁ with
  | zero =>
    intro f₂ s h1 h2
    have hs : s = [] := List.length_eq_zero.mp (Nat.le_zero.mp h1)
    subst hs
    cases f₂ <;> simp [findLoopF]
  | succ a ih =>
    intro f₂ s h1 h2
    cases s with
    | nil => cases f₂ <;> simp [findLoopF]
    | cons c t =>
      cases f₂ with
      | zero => simp at h2
      | succ b =>
        simp only [List.length_cons] at h1 h2
        cases hm : seqMatch ps (c :: t) with
        | some r =>
          obtain ⟨n, cs⟩ := r
          have hle : n ≤ (c :: t).length := seqMatch_le hm
          simp only [List.length_cons] at hle
          by_cases hn : 0 < n
          · have hlen : ((c :: t).drop n).length ≤ a := by
              simp only [List.length_drop, List.length_cons]; omega
            have hlen2 : ((c :: t).drop n).length ≤ b := by
              simp only [List.length_drop, List.length_cons]; omega
            simp only [findLoopF, hm, if_pos hn]
            rw [ih b _ hlen hlen2]
          · have hlen : t.length ≤ a := by omega
            have hlen2 : t.length ≤ b := by omega
            simp only [findLoopF, hm, if_neg hn]
            rw [ih b t hlen hlen2]
        | none =>
          have hlen : t.length ≤ a := by omega
          have hlen2 : t.length ≤ b := by omega
          simp only [findLoopF, hm]
          rw [ih b t hlen hlen2]

theorem reSubL_nil (ps : List RElem) (f : List Char → List (List Char) → List Char) :
    reSubL ps f [] = [] := rfl

theorem reSubL_cons_none {ps : List RElem} {f : List Char → List (List Char) → List Char}
    {c : Char} {t : List Char} (h : seqMatch ps (c :: t) = none) :
    reSubL ps f (c :: t) = c :: reSubL ps f t := by
  simp only [reSubL, List.length_cons, subLoopF, h]

theorem reSubL_cons_some {ps : List RElem} {f : List Char → List (List Char) → List Char}
    {c : Char} {t : List Char} {n : Nat} {cs : List (List Char)}
    (h : seqMatch ps (c :: t) = some (n, cs)) (hn : 0 < n) :
    reSubL ps f (c :: t) = f ((c :: t).take n) cs ++ reSubL ps f ((c :: t).drop n) := by
  have hle : n ≤ (c :: t).length := seqMatch_le h
  simp only [List.length_cons] at hle
  simp only [reSubL, List.length_cons, subLoopF, h, if_pos hn]
  congr 1
  refine subLoopF_congr ps f t.length ((c :: t).drop n).length _ ?_ (Nat.le_refl _)
  simp only [List.length_drop, List.length_cons]
  omega

theorem reFindL_nil (ps : List RElem) : reFindL ps [] = [] := rfl

theorem reFindL_cons_none {ps : List RElem} {c : Char} {t : List Char}
    (h : seqMatch ps (c :: t) = none) :
    reFindL ps (c :: t) = reFindL ps t := by
  simp only [reFindL, List.length_cons, findLoopF, h]

theorem reFindL_cons_some {ps : List RElem} {c : Char} {t : List Char} {n : Nat}
    {cs : List (List Char)} (h : seqMatch ps (c :: t) = some (n, cs)) (hn : 0 < n) :
    reFindL ps (c :: t) = cs :: reFindL ps ((c :: t).drop n) := by
  have hle : n ≤ (c :: t).length := seqMatch_le h
  simp only [List.length_cons] at hle
  simp only [reFindL, List.length_cons, findLoopF, h, if_pos hn]
  congr 1
  refine findLoopF_congr ps t.length ((c :: t).drop n).length _ ?_ (Nat.le_refl _)
  simp only [List.length_drop, List.length_cons]
  omega

/-! ## Trigger-substring lemmas: a rule whose pattern includes a literal
cannot fire on text lacking that literal as a substring -/

theorem containsSeq_of_litPref {l s : List Char} (h : litPref l s = true) :
    containsSeq l s = true := by
  cases s with
  | nil =>
    cases l with
    | nil => simp [containsSeq, findSeqIdx]
    | cons a as => simp [litPref] at h
  | cons c t => simp [containsSeq, findSeqIdx, h]

theorem containsSeq_cons {l : List Char} (c : Char) {t : List Char}
    (h : containsSeq l t = true) : containsSeq l (c :: t) = true := by
  simp only [containsSeq] at h ⊢
  rw [findSeqIdx]
  by_cases hp : litPref l (c :: t)
  · simp [hp]
  · simp [hp, h]

theorem containsSeq_drop {l : List Char} :
    ∀ (k : Nat) (s : List Char), containsSeq l (s.drop k) = true → containsSeq l s = true := by
  intro k
  induction k with
  | zero => intro s h; simpa using h
  | succ k ih =>
    intro s h
    cases s with
    | nil => simpa using h
    | cons c t => exact containsSeq_cons c (ih t (by simpa using h))

theorem seqMatch_lit_contains {l : List Char} :
    ∀ {ps : List RElem} {s : List Char} {r : Nat × List (List Char)},
      RElem.lit l ∈ ps → seqMatch ps s = some r → containsSeq l s = true := by
  intro ps
  induction ps with
  | nil => intro s r hmem; simp at hmem
  | cons e ps ih =>
    intro s r hmem h
    rcases List.mem_cons.mp hmem with he | hmem'
    · subst he
      simp only [seqMatch] at h
      by_cases hp : litPref l s
      · exact containsSeq_of_litPref hp
      · rw [if_neg hp] at h; exact absurd h (by simp)
    · cases e with
      | lit l' =>
        simp only [seqMatch] at h
        by_cases hp : litPref l' s
        · rw [if_pos hp, Option.map_eq_some'] at h
          obtain ⟨r', hr, _⟩ := h
          exact containsSeq_drop _ _ (ih hmem' hr)
        · rw [if_neg hp] at h; exact absurd h (by simp)
      | one p =>
        cases s with
        | nil => simp [seqMatch] at h
        | cons c t =>
          simp only [seqMatch] at h
          by_cases hp : p c
          · rw [if_pos hp, Option.map_eq_some'] at h
            obtain ⟨r', hr, _⟩ := h
            exact containsSeq_cons c (ih hmem' hr)
          · rw [if_neg hp] at h; exact absurd h (by simp)
      | cls p =>
        simp only [seqMatch, Option.map_eq_some'] at h
        obtain ⟨⟨i, n', cs'⟩, hr, _⟩ := h
        obtain ⟨_, h2⟩ := tryDrops_sound hr
        exact containsSeq_drop _ _ (ih hmem' h2)
      | grp p =>
        simp only [seqMatch, Option.map_eq_some'] at h
        obtain ⟨⟨i, n', cs'⟩, hr, _⟩ := h
        obtain ⟨_, h2⟩ := tryDrops_sound hr
        exact containsSeq_drop _ _ (ih hmem' h2)
      | lazyDot =>
        simp only [seqMatch, Option.map_eq_some'] at h
        obtain ⟨⟨i, n', cs'⟩, hr, _⟩ := h
        obtain ⟨_, _, h2⟩ := lazyDrops_sound hr
        exact containsSeq_drop _ _ (ih hmem' h2)

theorem seqMatch_none_of_not_contains {ps : List RElem} {l s : List Char}
    (hmem : RElem.lit l ∈ ps) (h : containsSeq l s = false) : seqMatch ps s = none := by
  cases hm : seqMatch ps s with
  | none => rfl
  | some r =>
    have := seqMatch_lit_contains hmem hm
    rw [h] at this
    exact absurd this (by simp)

theorem reSubL_id_of_not_contains {ps : List RElem} {l : List Char}
    {f : List Char → List (List Char) → List Char} (hmem : RElem.lit l ∈ ps) :
    ∀ s, containsSeq l s = false → reSubL ps f s = s := by
  intro s
  induction s with
  | nil => intro _; rfl
  | cons c t ih =>
    intro h
    have ht : containsSeq l t = false := by
      cases hc : containsSeq l t
      · rfl
      · rw [containsSeq_cons c hc] at h; exact absurd h (by simp)
    rw [reSubL_cons_none (seqMatch_none_of_not_contains hmem h), ih ht]

theorem reSubL_id_of_all_none {ps : List RElem} {f : List Char → List (List Char) → List Char} :
    ∀ s, (∀ k, seqMatch ps (s.drop k) = none) → reSubL ps f s = s := by
  intro s
  induction s with
  | nil => intro _; rfl
  | cons c t ih =>
    intro h
    rw [reSubL_cons_none (by simpa using h 0), ih (fun k => by simpa using h (k + 1))]

theorem reFindL_nil_of_all_none {ps : List RElem} :
    ∀ s, (∀ k, seqMatch ps (s.drop k) = none) → reFindL ps s = [] := by
  intro s
  induction s with
  | nil => intro _; rfl
  | cons c t ih =>
    intro h
    rw [reFindL_cons_none (by simpa using h 0), ih (fun k => by simpa using h (k + 1))]

theorem rules1to7_id_of_inert (dl : Option (List (String × ImgInfo))) (o : String)
    (h : sanitizedInert o = true) : rules1to7 dl o = o := by
  simp only [sanitizedInert, Bool.and_eq_true, Bool.not_eq_true'] at h
  obtain ⟨⟨⟨⟨⟨⟨⟨⟨⟨⟨⟨⟨⟨h1, h2⟩, h3⟩, h4⟩, h5⟩, h6⟩, h7⟩, h8⟩, h9⟩, h10⟩, h11⟩, h12⟩, h13⟩, h14⟩ := h
  have e1 : reSubL P_pdf pdfRepl o.toList = o.toList :=
    reSubL_id_of_not_contains (l := "![".toList) (by simp [P_pdf]) _ h1
  have e2 : reSubL P_data (fun _ _ => "[Image]".toList) o.toList = o.toList :=
    reSubL_id_of_not_contains (l := "![".toList) (by simp [P_data]) _ h1
  have e3 : reSubL P_next (fun _ _ => "[Image]".toList) o.toList = o.toList :=
    reSubL_id_of_not_contains (l := "![".toList) (by simp [P_next]) _ h1
  have e5 : reSubL P_rel (fun _ _ => []) o.toList = o.toList :=
    reSubL_id_of_not_contains (l := "\x7brel=\"".toList) (by simp [P_rel]) _ h14
  have e6 : reSubL P_hsenc (fun _ _ => []) o.toList = o.toList :=
    reSubL_id_of_not_contains (l := "_hsenc=".toList) (by simp [P_hsenc]) _ h5
  have e7 : reSubL P_qutm (fun _ _ => []) o.toList = o.toList :=
    reSubL_id_of_not_contains (l := "?utm_".toList) (by simp [P_qutm]) _ h6
  have e8 : reSubL P_autm (fun _ _ => []) o.toList = o.toList :=
    reSubL_id_of_not_contains (l := "&utm_".toList) (by simp [P_autm]) _ h7
  have e9 : reSubL P_amp (fun _ _ => "&".toList) o.toList = o.toList :=
    reSubL_id_of_not_contains (l := "&&".toList) (by simp [P_amp]) _ h8
  have e10 : reSubL P_ampP (fun _ _ => ")".toList) o.toList = o.toList :=
    reSubL_id_of_not_contains (l := "&)".toList) (by simp [P_ampP]) _ h9
  have e11 : reSubL P_qP (fun _ _ => ")".toList) o.toList = o.toList :=
    reSubL_id_of_not_contains (l := "?)".toList) (by simp [P_qP]) _ h10
  have e12 : reSubL P_brace (fun _ _ => []) o.toList = o.toList :=
    reSubL_id_of_not_contains (l := "\x7b".toList) (by simp [P_brace]) _ h4
  have e13 : reSubL P_target (fun _ _ => []) o.toList = o.toList :=
    reSubL_id_of_not_contains (l := "target=\"_blank\"".toList) (by simp [P_target]) _ h11
  have e14 : reSubL P_c3 (fun _ _ => []) o.toList = o.toList :=
    reSubL_id_of_not_contains (l := ":::".toList) (by simp [P_c3]) _ h12
  have e15 : reSubL P_c2x (fun _ _ => []) o.toList = o.toList :=
    reSubL_id_of_not_contains (l := "::".toList) (by simp [P_c2x]) _ h13
  cases dl with
  | none =>
    simp only [rules1to7, e1, e2, e3, e5, e6, e7, e8, e9, e10, e11, e12, e13, e14, e15]
    rfl
  | some d =>
    cases hd : d.isEmpty with
    | true =>
      simp only [rules1to7, hd, if_true, e1, e2, e3, e5, e6, e7, e8, e9, e10, e11, e12, e13,
        e14, e15]
      rfl
    | false =>
      have e4a : reSubL P_img (fun _ gs => replace_figure d gs) o.toList = o.toList :=
        reSubL_id_of_not_contains (l := "<img".toList) (by simp [P_img]) _ h2
      have e4b : reSubL P_figure (fun _ gs => replace_figure d gs) o.toList = o.toList :=
        reSubL_id_of_not_contains (l := "<figure".toList) (by simp [P_figure]) _ h3
      simp only [rules1to7, hd, Bool.false_eq_true, if_false, e1, e2, e3, e4a, e4b, e5, e6,
        e7, e8, e9, e10, e11, e12, e13, e14, e15]
      rfl

/-! ## Characterizing the download_images mapping -/

theorem lookupD_nil (k : String) : lookupD [] k = none := rfl

theorem lookupD_cons (k0 : String) (v0 : ImgInfo) (t : List (String × ImgInfo)) (k : String) :
    lookupD ((k0, v0) :: t) k = if k0 = k then some v0 else lookupD t k := by
  by_cases h : k0 = k
  · simp [lookupD, List.find?_cons, h]
  · simp [lookupD, List.find?_cons, h]

theorem lookupD_dictInsert_self (d : List (String × ImgInfo)) (k : String) (v : ImgInfo) :
    lookupD (dictInsert d k v) k = some v := by
  induction d with
  | nil => simp [dictInsert, lookupD_cons]
  | cons e t ih =>
    obtain ⟨k', v'⟩ := e
    by_cases hk : k' = k
    · simp [dictInsert, hk, lookupD_cons]
    · simp [dictInsert, hk, lookupD_cons, ih]

theorem lookupD_dictInsert_ne (d : List (String × ImgInfo)) (k k' : String) (v : ImgInfo)
    (h : k' ≠ k) : lookupD (dictInsert d k v) k' = lookupD d k' := by
  induction d with
  | nil =>
    simp [dictInsert, lookupD_cons, lookupD_nil]
    intro he
    exact absurd he.symm h
  | cons e t ih =>
    obtain ⟨k0, v0⟩ := e
    by_cases hk : k0 = k
    · subst hk
      have h0 : ¬ (k0 = k') := fun he => h he.symm
      simp [dictInsert, lookupD_cons, h0]
    · simp only [dictInsert, if_neg hk]
      by_cases h0 : k0 = k'
      · simp [lookupD_cons, h0]
      · simp [lookupD_cons, h0, ih]

theorem dictInsert_keys (d : List (String × ImgInfo)) (k : String) (v : ImgInfo) :
    (dictInsert d k v).map (·.1) = if k ∈ d.map (·.1) then d.map (·.1) else d.map (·.1) ++ [k] := by
  induction d with
  | nil => simp [dictInsert]
  | cons e t ih =>
    obtain ⟨k0, v0⟩ := e
    by_cases hk : k0 = k
    · subst hk
      simp [dictInsert]
    · simp only [dictInsert, if_neg hk, List.map_cons, ih]
      by_cases hm : k ∈ t.map (·.1)
      · simp [hm, Ne.symm hk]
      · simp [hm, Ne.symm hk]

theorem dictInsert_keys_nodup (d : List (String × ImgInfo)) (k : String) (v : ImgInfo)
    (h : (d.map (·.1)).Nodup) : ((dictInsert d k v).map (·.1)).Nodup := by
  rw [dictInsert_keys]
  by_cases hm : k ∈ d.map (·.1)
  · simpa [hm] using h
  · simp only [hm, if_false]
    refine List.Nodup.append h (List.nodup_singleton k) ?_
    intro a ha hk
    simp only [List.mem_singleton] at hk
    subst hk
    exact hm ha

theorem processHits_keys_nodup (slug : String) (ok : Nat → Bool) :
    ∀ (l : List (Nat × String × String)) (d : List (String × ImgInfo)),
      (d.map (·.1)).Nodup → ((processHits slug ok l d).map (·.1)).Nodup := by
  intro l
  induction l with
  | nil => intro d h; simpa [processHits] using h
  | cons e rest ih =>
    intro d h
    obtain ⟨i, url, alt⟩ := e
    simp only [processHits]
    by_cases hr : pyStartsWith "http" url
    · rw [if_pos hr]
      by_cases hok : ok i
      · rw [if_pos hok]; exact ih _ (dictInsert_keys_nodup _ _ _ h)
      · rw [if_neg hok]; exact ih _ (dictInsert_keys_nodup _ _ _ h)
    · rw [if_neg hr]; exact ih _ h



theorem getLast?_isSome {α : Type} : ∀ (y : α) (ys : List α), ∃ z, (y :: ys).getLast? = some z := by
  intro y ys
  induction ys generalizing y with
  | nil => exact ⟨y, rfl⟩
  | cons b bs ih => simpa [List.getLast?_cons_cons] using ih b

theorem getLast?_cons_eq {α : Type} (x : α) (xs : List α) :
    (x :: xs).getLast? =
      (match xs.getLast? with
       | some y => some y
       | none => some x) := by
  cases xs with
  | nil => rfl
  | cons y ys =>
    obtain ⟨z, hz⟩ := getLast?_isSome y ys
    rw [List.getLast?_cons_cons, hz]

theorem processHits_lookup (slug : String) (ok : Nat → Bool) :
    ∀ (l : List (Nat × String × String)) (d : List (String × ImgInfo)) (url : String),
      lookupD (processHits slug ok l d) url =
        if pyStartsWith "http" url then
          match (hitsFor url l).getLast? with
          | some h => some (descFor slug ok url h)
          | none => lookupD d url
        else lookupD d url := by
  intro l
  induction l with
  | nil =>
    intro d url
    simp only [processHits, hitsFor, List.filterMap_nil, List.getLast?_nil]
    split <;> rfl
  | cons e rest ih =>
    intro d url
    obtain ⟨i, u, a⟩ := e
    by_cases hu : u = url
    · subst hu
      have hh : hitsFor u ((i, u, a) :: rest) = (i, a) :: hitsFor u rest := by
        simp [hitsFor]
      by_cases hr : pyStartsWith "http" u
      · have step : processHits slug ok ((i, u, a) :: rest) d =
            processHits slug ok rest (dictInsert d u (descFor slug ok u (i, a))) := by
          simp only [processHits, if_pos hr, descFor]
          by_cases hok : ok i
          · simp [hok]
          · simp [hok]
        rw [step, ih, hh]
        simp only [if_pos hr, getLast?_cons_eq]
        cases hl : (hitsFor u rest).getLast? with
        | some h2 => rfl
        | none => simp [lookupD_dictInsert_self]
      · have step : processHits slug ok ((i, u, a) :: rest) d = processHits slug ok rest d := by
          simp only [processHits, if_neg hr]
        rw [step, ih]
        simp only [if_neg hr]
    · have hh : hitsFor url ((i, u, a) :: rest) = hitsFor url rest := by
        simp [hitsFor, hu]
      by_cases hr : pyStartsWith "http" u
      · have step : ∃ v, processHits slug ok ((i, u, a) :: rest) d =
            processHits slug ok rest (dictInsert d u v) := by
          simp only [processHits, if_pos hr]
          by_cases hok : ok i
          · exact ⟨_, by rw [if_pos hok]⟩
          · exact ⟨_, by rw [if_neg hok]⟩
        obtain ⟨v, step⟩ := step
        rw [step, ih, hh]
        have hne : url ≠ u := fun h => hu h.symm
        by_cases hru : pyStartsWith "http" url
        · simp only [if_pos hru]
          cases hl : (hitsFor url rest).getLast? with
          | some h2 => rfl
          | none => simp [lookupD_dictInsert_ne _ _ _ _ hne]
        · simp only [if_neg hru]
          rw [lookupD_dictInsert_ne _ _ _ _ hne]
      · have step : processHits slug ok ((i, u, a) :: rest) d = processHits slug ok rest d := by
          simp only [processHits, if_neg hr]
        rw [step, ih, hh]

/-- Lookup characterization of the full Asset Localizer pass. -/
theorem download_images_lookup (content slug : String) (ok : Nat → Bool) (url : String) :
    lookupD (download_images content slug ok) url =
      if pyStartsWith "http" url then
        ((hitsFor url (imgFindall content).enum).getLast?).map (descFor slug ok url)
      else none := by
  rw [download_images, processHits_lookup]
  by_cases hr : pyStartsWith "http" url
  · rw [if_pos hr, if_pos hr]
    cases (hitsFor url (imgFindall content).enum).getLast? <;> simp [lookupD]
  · rw [if_neg hr, if_neg hr]
    simp [lookupD]

/-! ## Properties of the metadata cleanup (filter + strip) -/

theorem mem_of_mem_dropWhile {p : Char → Bool} {a : Char} :
    ∀ {l : List Char}, a ∈ l.dropWhile p → a ∈ l := by
  intro l
  induction l with
  | nil => intro h; simp at h
  | cons c t ih =>
    intro h
    rw [List.dropWhile_cons] at h
    by_cases hp : p c
    · simp only [hp, if_true] at h
      exact List.mem_cons_of_mem c (ih h)
    · simp only [hp, if_false] at h
      exact h

theorem mem_of_mem_stripL {a : Char} {l : List Char} (h : a ∈ stripL l) : a ∈ l :=
  mem_of_mem_dropWhile h

theorem mem_of_mem_stripR {a : Char} {l : List Char} (h : a ∈ stripR l) : a ∈ l := by
  simp only [stripR, List.mem_reverse] at h
  exact List.mem_reverse.mp (mem_of_mem_dropWhile h)

theorem dropWhile_eq_drop (p : Char → Bool) :
    ∀ l : List Char, ∃ k, k ≤ l.length ∧ l.dropWhile p = l.drop k := by
  intro l
  induction l with
  | nil => exact ⟨0, by simp⟩
  | cons c t ih =>
    by_cases hp : p c
    · obtain ⟨k, hk, he⟩ := ih
      exact ⟨k + 1, by simpa using hk, by simpa [List.dropWhile_cons, hp] using he⟩
    · exact ⟨0, by simp, by simp [List.dropWhile_cons, hp]⟩

theorem dropWhile_idem (p : Char → Bool) (l : List Char) :
    (l.dropWhile p).dropWhile p = l.dropWhile p := by
  induction l with
  | nil => rfl
  | cons c t ih =>
    rw [List.dropWhile_cons]
    by_cases hp : p c
    · simpa [hp] using ih
    · simp [List.dropWhile_cons, hp]

theorem stripL_stripR_of_stripL_eq {y : List Char} (h : stripL y = y) :
    stripL (stripR y) = stripR y := by
  cases y with
  | nil => rfl
  | cons c t =>
    have hpc : pySpaceChar c = false := by
      by_cases hp : pySpaceChar c
      · rw [stripL, List.dropWhile_cons, if_pos hp] at h
        have h1 := dropWhile_eq_drop pySpaceChar t
        obtain ⟨k, hk, he⟩ := h1
        have : (t.dropWhile pySpaceChar).length = t.length + 1 := by rw [h]; simp
        rw [he] at this
        simp only [List.length_drop] at this
        omega
      · simp only [Bool.not_eq_true] at hp
        exact hp
    obtain ⟨m, hm, he⟩ := dropWhile_eq_drop pySpaceChar (c :: t).reverse
    by_cases hall : (c :: t).reverse.dropWhile pySpaceChar = []
    · rw [stripR, hall]
      rfl
    · have hm' : m ≤ t.reverse.length := by
        by_contra hgt
        have hml : m = t.reverse.length + 1 := by
          simp only [List.length_reverse, List.length_cons] at hm
          simp only [List.length_reverse] at hgt
          simp only [List.length_reverse]
          omega
        rw [he, hml] at hall
        apply hall
        have : (c :: t).reverse.length = t.reverse.length + 1 := by simp
        rw [List.drop_eq_nil_iff]
        omega
      have hrc : (c :: t).reverse = t.reverse ++ [c] := by simp
      have hdrop : (c :: t).reverse.drop m = t.reverse.drop m ++ [c] := by
        rw [hrc]
        exact List.drop_append_of_le_length hm'
      rw [stripR, he, hdrop]
      have : (t.reverse.drop m ++ [c]).reverse = c :: (t.reverse.drop m).reverse := by simp
      rw [this, stripL, List.dropWhile_cons, if_neg (by simp [hpc])]

theorem stripR_idem (y : List Char) : stripR (stripR y) = stripR y := by
  simp only [stripR, List.reverse_reverse]
  rw [dropWhile_idem]

theorem pyStrip_idem (s : String) : pyStrip (pyStrip s) = pyStrip s := by
  show pyStrip (String.mk (stripR (stripL s.toList))) = String.mk (stripR (stripL s.toList))
  rw [pyStrip]
  have h1 : stripL (stripL s.toList) = stripL s.toList := dropWhile_idem _ _
  have h2 : stripL (stripR (stripL s.toList)) = stripR (stripL s.toList) :=
    stripL_stripR_of_stripL_eq h1
  show String.mk (stripR (stripL (String.mk (stripR (stripL s.toList))).toList)) = _
  have h3 : (String.mk (stripR (stripL s.toList))).toList = stripR (stripL s.toList) := rfl
  rw [h3, h2, stripR_idem]

theorem cleanMeta_chars {x : String} {c : Char} (h : c ∈ (cleanMeta x).toList) :
    printableChar c = true := by
  simp only [cleanMeta, pyStrip, printableFilter] at h
  have h1 : c ∈ (x.toList.filter printableChar) :=
    mem_of_mem_stripL (mem_of_mem_stripR h)
  exact (List.mem_filter.mp h1).2

theorem pyStrip_cleanMeta (x : String) : pyStrip (cleanMeta x) = cleanMeta x := by
  rw [cleanMeta, pyStrip_idem]

/-! ## Claim C2 -/

/-- C2 counterexample: sanitizer rules 1-7 are not idempotent.  On the
document `??)` the collapse rule `\?\)` fires once per pass: the first
pass yields `?)`, the second `)`. -/
theorem C2_counterexample :
    rules1to7 none (rules1to7 none "??)") ≠ rules1to7 none "??)" := by decide

/-- C2 (amended): the rule sequence 1-7 is not idempotent in general; it
is the identity (hence idempotent) on any first-pass output that contains
none of the rules' trigger substrings (`![`, `<img`, `<figure`, `{`,
`_hsenc=`, `?utm_`, `&utm_`, `&&`, `&)`, `?)`, `target="_blank"`, `:::`,
`::`, `{rel="`). -/
theorem C2_amended (dl : Option (List (String × ImgInfo))) (s : String)
    (h : sanitizedInert (rules1to7 dl s) = true) :
    rules1to7 dl (rules1to7 dl s) = rules1to7 dl s :=
  rules1to7_id_of_inert dl _ h

/-- C2 witness: a plain document sanitizes to itself and a second pass
changes nothing. -/
theorem C2_witness :
    rules1to7 none (rules1to7 none "hello world") = rules1to7 none "hello world" :=
  C2_amended none "hello world" (by decide)

/-! ## Claim C3 -/

/-- C3 counterexample: with a non-remote image hit preceding the only
remote locator, the remote locator (position 1 among remote locators) is
named `s_image_2.png` — the sequence number is its position among all
scan hits, not among remote locators. -/
theorem C3_counterexample :
    download_images docLocalThenRemote "s" (fun _ => true) =
      [("https://x.test/b.png", ImgInfo.mk "img/s_image_2.png" "R" "s_image_2.png")] ∧
    "s_image_2.png" ≠ "s_image_1.png" := by
  refine ⟨by decide, by decide⟩

/-- C3 (amended): the mapping of `download_images` has pairwise-distinct
keys (one entry per unique remote locator), and the entry for a locator
exists iff the locator starts with `http` and occurs among the scan hits;
its descriptor is determined by the locator's last scan hit `(i, alt)`:
the placeholder on failure, else the file
`{slug}_image_{i+1}{ext}` where `i` is the hit's 0-based index among all
scan hits (including non-remote and repeated ones) and `ext` comes from
the locator's path suffix with the `.jpg` default and GIF coercion. -/
theorem C3_amended (content slug : String) (ok : Nat → Bool) (url : String) :
    (lookupD (download_images content slug ok) url =
      if pyStartsWith "http" url then
        ((hitsFor url (imgFindall content).enum).getLast?).map (descFor slug ok url)
      else none) ∧
    ((download_images content slug ok).map (·.1)).Nodup :=
  ⟨download_images_lookup content slug ok url,
   processHits_keys_nodup slug ok (imgFindall content).enum [] (by simp)⟩

/-! ## Claim C4 -/

/-- C4: a remote locator whose (last) fetch attempt fails is recorded as
the placeholder descriptor `{path := "example-image-a", alt := alt,
filename := "example-image-a"}` and the pass continues; in the concrete
three-locator scenario with exactly the middle iteration failing, the
mapping has three entries of which exactly one is the placeholder. -/
theorem C4_theorem :
    (∀ (content slug : String) (ok : Nat → Bool) (url : String) (i : Nat) (a : String),
      pyStartsWith "http" url = true →
      (hitsFor url (imgFindall content).enum).getLast? = some (i, a) →
      ok i = false →
      lookupD (download_images content slug ok) url = some (placeholderInfo a)) ∧
    download_images docThree "s" (fun i => i != 1) =
      [("https://a.test/1.png", ImgInfo.mk "img/s_image_1.png" "one" "s_image_1.png"),
       ("https://b.test/2.png", placeholderInfo "two"),
       ("https://c.test/3.png", ImgInfo.mk "img/s_image_3.png" "three" "s_image_3.png")] ∧
    ((download_images docThree "s" (fun i => i != 1)).filter
      (fun e => e.2.filename == "example-image-a")).length = 1 := by
  refine ⟨?_, by decide, by decide⟩
  intro content slug ok url i a h1 h2 h3
  rw [download_images_lookup, if_pos h1, h2]
  simp [descFor, h3]

/-- C4 witness: the failing middle locator of the three-locator scenario
is looked up as the placeholder. -/
theorem C4_witness :
    lookupD (download_images docThree "s" (fun i => i != 1)) "https://b.test/2.png" =
      some (placeholderInfo "two") :=
  C4_theorem.1 docThree "s" (fun i => i != 1) "https://b.test/2.png" 1 "two"
    (by decide) (by decide) (by decide)

/-! ## Claim C5 -/

/-- C5: the GIF end-to-end scenario: the descriptor's filename is forced
to `.jpg`, its alt text is `Cat`, and after the sanitizer's
asset-substitution the document is `![Cat](img/article_image_1.jpg)`. -/
theorem C5_theorem :
    download_images docGif "article" (fun _ => true) =
      [("https://x.test/a.gif",
        ImgInfo.mk "img/article_image_1.jpg" "Cat" "article_image_1.jpg")] ∧
    (".jpg".toList).isSuffixOf ("article_image_1.jpg".toList) = true ∧
    rules1to7 (some (download_images docGif "article" (fun _ => true))) docGif =
      "![Cat](img/article_image_1.jpg)" := by
  refine ⟨by decide, by decide, by decide⟩

/-! ## Claim C6 -/

/-- C6 counterexample: a title element whose text is whitespace-only
yields the empty string, not `"Unknown Title"`; and a title element with
no string raises. -/
theorem C6_counterexample :
    extract_metadata (Soup.mk (some (some "   ")) []) = .ok ("", "Unknown Author") ∧
    ("" : String) ≠ "Unknown Title" ∧
    extract_metadata (Soup.mk (some none) []) = .error () :=
  ⟨rfl, by decide, rfl⟩

/-- C6 (amended): the extractor returns `"Unknown Title"` exactly when the
title element is absent; a present title with a string yields that string
trimmed and filtered (possibly empty); a present title without a string
raises. -/
theorem C6_amended (soup : Soup) :
    (soup.title = none →
      extract_metadata soup = .ok ("Unknown Title", cleanMeta (authorOf soup))) ∧
    (soup.title = some none → extract_metadata soup = .error ()) ∧
    (∀ s, soup.title = some (some s) →
      extract_metadata soup = .ok (cleanMeta (pyStrip s), cleanMeta (authorOf soup))) := by
  obtain ⟨ti, ms⟩ := soup
  have hclean : cleanMeta "Unknown Title" = "Unknown Title" := by decide
  refine ⟨?_, ?_, ?_⟩
  · intro h
    simp only at h
    subst h
    simp [extract_metadata, hclean]
  · intro h
    simp only at h
    subst h
    simp [extract_metadata]
  · intro s h
    simp only at h
    subst h
    simp [extract_metadata]

/-- C6 witness: a soup with no title element maps to the fallback. -/
theorem C6_witness :
    extract_metadata (Soup.mk none []) = .ok ("Unknown Title", "Unknown Author") := by
  rw [(C6_amended (Soup.mk none [])).1 rfl]
  rfl

/-! ## Claim C7 -/

/-- C7 counterexample: a `name=author` meta element with empty content
prevents a non-empty `property=author` element from being used (the
author falls back to `"Unknown Author"` instead of `"X"`); and
whitespace-only content yields the empty string instead of the
fallback. -/
theorem C7_counterexample :
    extract_metadata soupEmptyThenProp = .ok ("T", "Unknown Author") ∧
    ("Unknown Author" : String) ≠ "X" ∧
    extract_metadata
        (Soup.mk (some (some "T")) [MetaTag.mk (some "author") none (some "  ")]) =
      .ok ("T", "") :=
  ⟨rfl, by decide, rfl⟩

/-- C7 (amended): the element-level lookup decides first: if any
`name=author` meta element exists, the `property=author` lookup is never
consulted; the author is that element's content trimmed when the content
attribute is present and non-empty before trimming (so whitespace-only
content yields the empty string), else `"Unknown Author"`. -/
theorem C7_amended (soup : Soup) (tag : MetaTag) (t a : String)
    (hf : soup.metas.find? (fun mt => mt.name == some "author") = some tag)
    (he : extract_metadata soup = .ok (t, a)) :
    ((tag.content = some "" ∨ tag.content = none) → a = "Unknown Author") ∧
    (∀ c, tag.content = some c → c ≠ "" → a = cleanMeta (pyStrip c)) := by
  have hUA : cleanMeta "Unknown Author" = "Unknown Author" := by decide
  have ha : a = cleanMeta (authorOf soup) := by
    obtain ⟨ti, ms⟩ := soup
    cases ti with
    | none =>
      simp only [extract_metadata, Except.ok.injEq, Prod.mk.injEq] at he
      exact he.2.symm
    | some o =>
      cases o with
      | none => simp [extract_metadata] at he
      | some s =>
        simp only [extract_metadata, Except.ok.injEq, Prod.mk.injEq] at he
        exact he.2.symm
  have hauth : authorOf soup =
      (match tag.content with
       | some c => if c ≠ "" then pyStrip c else "Unknown Author"
       | none => "Unknown Author") := by
    simp only [authorOf, hf, Option.orElse]
  constructor
  · intro hc
    rcases hc with hc | hc
    · rw [ha, hauth, hc]
      simpa using hUA
    · rw [ha, hauth, hc]
      exact hUA
  · intro c hc hne
    rw [ha, hauth, hc]
    simp [hne]

/-- C7 witness: instantiating the amended claim at the soup whose first
author lookup has empty content. -/
theorem C7_witness :
    extract_metadata soupEmptyThenProp = .ok ("T", "Unknown Author") ∧
    ("Unknown Author" : String) = "Unknown Author" :=
  ⟨rfl, (C7_amended soupEmptyThenProp (MetaTag.mk (some "author") none (some ""))
    "T" "Unknown Author" (by decide) rfl).1 (Or.inl rfl)⟩

/-! ## Claim C8 -/

/-- C8 counterexample: the header block's key/value lines come out in
alphabetical order (author, date, editor, title, url), not in the order
title, author, url, editor, date. -/
theorem C8_counterexample :
    insert_metadata "body" mdSample none =
      "---\nauthor: A\ndate: D\neditor: E\ntitle: T\nurl: U\n---\n\nbody" ∧
    insert_metadata "body" mdSample none ≠
      "---\ntitle: T\nauthor: A\nurl: U\neditor: E\ndate: D\n---\n\nbody" := by
  refine ⟨by decide, by decide⟩

/-- C8 (amended): for records in the modelled scalar class, the prepended
header serializes the record as `key: value` lines in the fixed
alphabetical order author, date, editor, title, url — each value rendered
per PyYAML's scalar rules, plain when the value stays a string under the
implicit resolver and carries no indicators, else single-quoted (so the
pipeline's ISO date is emitted as `date: '2025-08-05'`, as the
repository's test pins) — framed by a three-dash delimiter line before
and after, and followed by a blank line and the sanitized body. -/
theorem C8_amended (content : String) (m : Metadata) (dl : Option (List (String × ImgInfo)))
    (h : yamlSafeMeta m = true) :
    insert_metadata content m dl =
      "---\n" ++ ("author: " ++ yamlScalar m.author ++ "\n" ++ "date: " ++
        yamlScalar m.date ++ "\n" ++ "editor: " ++ yamlScalar m.editor ++ "\n" ++
        "title: " ++ yamlScalar m.title ++ "\n" ++ "url: " ++ yamlScalar m.url ++ "\n") ++
      "---\n" ++ "\n" ++ rules1to7 dl content ∧
    (∀ s, yamlPlain s = true → yamlScalar s = s) ∧
    yamlScalar "2025-08-05" = "'2025-08-05'" ∧
    yamlScalar "Test Author" = "Test Author" := by
  refine ⟨rfl, ?_, by decide, by decide⟩
  intro s hs
  simp [yamlScalar, hs]

/-- C8 witness: the repository test's metadata record, with the date
quoted and the plain values unquoted. -/
theorem C8_witness :
    insert_metadata "# Test Article" (Metadata.mk "Test Title" "Test Author"
        "https://example.com/a" "ed" "2025-08-05") none =
      "---\nauthor: Test Author\ndate: '2025-08-05'\neditor: ed\ntitle: Test Title\nurl: https://example.com/a\n---\n\n# Test Article" := by
  rw [(C8_amended "# Test Article" (Metadata.mk "Test Title" "Test Author"
    "https://example.com/a" "ed" "2025-08-05") none (by decide)).1]
  decide

/-! ## Claim C9 -/

/-- C9: every title/author pair the extractor returns consists of
printable-ASCII (0x20-0x7E) characters only, with no leading or trailing
whitespace left (stripping again is a no-op). -/
theorem C9_theorem (soup : Soup) (t a : String) (h : extract_metadata soup = .ok (t, a)) :
    (∀ c ∈ t.toList, printableChar c = true) ∧ (∀ c ∈ a.toList, printableChar c = true) ∧
    pyStrip t = t ∧ pyStrip a = a := by
  have hex : ∃ x y, t = cleanMeta x ∧ a = cleanMeta y := by
    obtain ⟨ti, ms⟩ := soup
    cases ti with
    | none =>
      simp only [extract_metadata, Except.ok.injEq, Prod.mk.injEq] at h
      exact ⟨_, _, h.1.symm, h.2.symm⟩
    | some o =>
      cases o with
      | none => simp [extract_metadata] at h
      | some s =>
        simp only [extract_metadata, Except.ok.injEq, Prod.mk.injEq] at h
        exact ⟨_, _, h.1.symm, h.2.symm⟩
  obtain ⟨x, y, rfl, rfl⟩ := hex
  exact ⟨fun c hc => cleanMeta_chars hc, fun c hc => cleanMeta_chars hc,
    pyStrip_cleanMeta x, pyStrip_cleanMeta y⟩

/-- C9 witness: the conclusion instantiated at a concrete extraction. -/
theorem C9_witness :
    (∀ c ∈ ("T" : String).toList, printableChar c = true) ∧
    (∀ c ∈ ("Unknown Author" : String).toList, printableChar c = true) ∧
    pyStrip "T" = "T" ∧ pyStrip "Unknown Author" = "Unknown Author" :=
  C9_theorem (Soup.mk (some (some "T")) []) "T" "Unknown Author" rfl

/-! ## Controlled evaluation of the matcher on well-formed image tags -/

theorem seqMatch_lit_neg {l : List Char} {ps : List RElem} {s : List Char}
    (h : litPref l s = false) : seqMatch (.lit l :: ps) s = none := by
  simp [seqMatch, h]

theorem seqMatch_lit_pos {l : List Char} {ps : List RElem} {s : List Char}
    (h : litPref l s = true) :
    seqMatch (.lit l :: ps) s =
      (seqMatch ps (s.drop l.length)).map (fun r => (l.length + r.1, r.2)) := by
  simp [seqMatch, h]

theorem litPref_nil_false (c : Char) (l : List Char) :
    litPref (c :: l) ([] : List Char) = false := rfl

theorem litPref_cons_ne {c d : Char} (l s : List Char) (h : c ≠ d) :
    litPref (c :: l) (d :: s) = false := by
  simp [litPref, beq_false_of_ne h]

theorem tryDrops_top {cont : List Char → Option (Nat × List (List Char))} {s : List Char}
    {k n : Nat} {cs : List (List Char)} (h : cont (s.drop k) = some (n, cs)) :
    tryDrops cont s k = some (k, n, cs) := by
  cases k with
  | zero => simp only [tryDrops, List.drop_zero] at h ⊢; rw [h]; rfl
  | succ k => simp only [tryDrops, h]

theorem tryDrops_eq_of {cont : List Char → Option (Nat × List (List Char))} {s : List Char}
    {i₀ n : Nat} {cs : List (List Char)} :
    ∀ {k : Nat}, i₀ ≤ k → cont (s.drop i₀) = some (n, cs) →
      (∀ i, i₀ < i → i ≤ k → cont (s.drop i) = none) →
      tryDrops cont s k = some (i₀, n, cs) := by
  intro k
  induction k with
  | zero =>
    intro hk h _
    have : i₀ = 0 := Nat.le_zero.mp hk
    subst this
    exact tryDrops_top h
  | succ k ih =>
    intro hk h hfail
    by_cases he : i₀ = k + 1
    · subst he
      exact tryDrops_top h
    · have hlt : i₀ ≤ k := by omega
      have hk1 : cont (s.drop (k + 1)) = none := hfail (k + 1) (by omega) (Nat.le_refl _)
      simp only [tryDrops, hk1]
      exact ih hlt h (fun i hi1 hi2 => hfail i hi1 (by omega))

theorem tryDrops_none {cont : List Char → Option (Nat × List (List Char))} {s : List Char} :
    ∀ {k : Nat}, (∀ i, i ≤ k → cont (s.drop i) = none) → tryDrops cont s k = none := by
  intro k
  induction k with
  | zero =>
    intro h
    have h0 : cont s = none := by simpa using h 0 (Nat.le_refl 0)
    simp [tryDrops, h0]
  | succ k ih =>
    intro h
    simp only [tryDrops, h (k + 1) (Nat.le_refl _)]
    exact ih (fun i hi => h i (by omega))

theorem takeWhile_append_all {p : Char → Bool} {U : List Char} (X : List Char)
    (h : ∀ c ∈ U, p c = true) : (U ++ X).takeWhile p = U ++ X.takeWhile p := by
  induction U with
  | nil => simp
  | cons c t ih =>
    have hc : p c = true := h c (by simp)
    simp only [List.cons_append, List.takeWhile_cons, hc, if_true]
    rw [ih (fun d hd => h d (by simp [hd]))]

theorem runLen_append_all {p : Char → Bool} {U : List Char} (X : List Char)
    (h : ∀ c ∈ U, p c = true) : runLen p (U ++ X) = U.length + runLen p X := by
  simp [runLen, takeWhile_append_all X h]

theorem runLen_cons_pos {p : Char → Bool} {c : Char} (t : List Char) (h : p c = true) :
    runLen p (c :: t) = runLen p t + 1 := by
  simp [runLen, List.takeWhile_cons, h]

theorem runLen_cons_neg {p : Char → Bool} {c : Char} (t : List Char) (h : p c = false) :
    runLen p (c :: t) = 0 := by
  simp [runLen, List.takeWhile_cons, h]

/-- No five-character pattern `[a₁,a₂,a₃,'=','"']` (with `a₁ a₂ a₃` not the
quote character) starts inside `v ++ '"' :: rest` when `v` contains neither
`=` nor `"`. -/
theorem np5 {a₁ a₂ a₃ : Char} (h₁ : a₁ ≠ '"') (h₂ : a₂ ≠ '"') (h₃ : a₃ ≠ '"') :
    ∀ (v rest : List Char), (∀ c ∈ v, c ≠ '=' ∧ c ≠ '"') →
      litPref ([a₁, a₂, a₃, '=', '"'] : List Char) (v ++ '"' :: rest) = false := by
  intro v rest hv
  match v with
  | [] =>
    simp [litPref, beq_false_of_ne h₁]
  | [v1] =>
    simp [litPref, beq_false_of_ne h₂]
  | [v1, v2] =>
    simp [litPref, beq_false_of_ne h₃]
  | [v1, v2, v3] =>
    have : ('=' : Char) ≠ '"' := by decide
    simp [litPref, beq_false_of_ne this]
  | v1 :: v2 :: v3 :: v4 :: w =>
    have h4 : v4 ≠ '=' := (hv v4 (by simp)).1
    simp [litPref, beq_false_of_ne (fun he => h4 he.symm)]

/-- Attribute cleanliness, unpacked. -/
theorem cleanAttr_spec {l : List Char} (h : cleanAttr l = true) :
    ∀ c ∈ l, c ≠ '"' ∧ c ≠ '<' ∧ c ≠ '>' ∧ c ≠ '=' := by
  intro c hc
  have := (List.all_eq_true.mp h) c hc
  simp only [Bool.and_eq_true, bne_iff_ne] at this
  exact ⟨this.1.1.1, this.1.1.2, this.1.2, this.2⟩

theorem clean_sub {l : List Char} (h : ∀ c ∈ l, c ≠ '"' ∧ c ≠ '<' ∧ c ≠ '>' ∧ c ≠ '=') :
    ∀ c ∈ l, c ≠ '=' ∧ c ≠ '"' := fun c hc => ⟨(h c hc).2.2.2, (h c hc).1⟩

/-- In the region after the alt-value opening quote of a canonical image
tag, the literal `alt="` occurs only at offset 1. -/
theorem noAlt_obligation (A rest : List Char)
    (hA : ∀ c ∈ A, c ≠ '"' ∧ c ≠ '<' ∧ c ≠ '>' ∧ c ≠ '=') :
    ∀ i, 1 < i → i ≤ A.length + 7 →
      seqMatch
        [.lit ("alt=\"".toList), .grp (fun c => c != '"'), .lit ("\"".toList),
        .cls (fun c => c != '>'), .lit (">".toList)]
        ((' ':: 'a':: 'l':: 't':: '=':: '"'::(A ++ '"':: '>'::rest)).drop i) = none := by
  intro i hi1 hi2
  have hA' : ∀ c ∈ A, c ≠ '=' ∧ c ≠ '"' := clean_sub hA
  by_cases h5 : i ≤ 5
  · interval_cases i
    · exact seqMatch_lit_neg rfl
    · exact seqMatch_lit_neg rfl
    · exact seqMatch_lit_neg rfl
    · exact seqMatch_lit_neg rfl
  · by_cases h6 : i ≤ A.length + 6
    · obtain ⟨j, rfl⟩ : ∃ j, i = j + 6 := ⟨i - 6, by omega⟩
      have hdrop : (' ':: 'a':: 'l':: 't':: '=':: '"'::(A ++ '"':: '>'::rest)).drop (j + 6) =
          (A ++ '"':: '>'::rest).drop j := rfl
      rw [hdrop, List.drop_append_of_le_length (by omega)]
      refine seqMatch_lit_neg ?_
      exact @np5 'a' 'l' 't' (by decide) (by decide) (by decide)
        (A.drop j) ('>'::rest) (fun c hc => hA' c (List.mem_of_mem_drop hc))
    · have hi : i = A.length + 7 := by omega
      subst hi
      have hdrop : (' ':: 'a':: 'l':: 't':: '=':: '"'::(A ++ '"':: '>'::rest)).drop (A.length + 7) =
          ('"':: '>'::rest).drop 1 := by
        have h1 : (' ':: 'a':: 'l':: 't':: '=':: '"'::(A ++ '"':: '>'::rest)).drop (A.length + 7) =
            ((A ++ '"':: '>'::rest)).drop (A.length + 1) := by
          have : A.length + 7 = (A.length + 1) + 6 := by omega
          rw [this]
          rfl
        rw [h1, List.drop_append]
      rw [hdrop]
      exact seqMatch_lit_neg rfl

/-- In a canonical image tag the literal `src="` occurs only at offset 1
after `<img`. -/
theorem noSrc_obligation (U A rest : List Char)
    (hU : ∀ c ∈ U, c ≠ '"' ∧ c ≠ '<' ∧ c ≠ '>' ∧ c ≠ '=')
    (hA : ∀ c ∈ A, c ≠ '"' ∧ c ≠ '<' ∧ c ≠ '>' ∧ c ≠ '=') :
    ∀ i, 1 < i → i ≤ U.length + A.length + 14 →
      seqMatch
        [.lit ("src=\"".toList), .grp (fun c => c != '"'), .lit ("\"".toList),
        .cls (fun c => c != '>'), .lit ("alt=\"".toList), .grp (fun c => c != '"'),
        .lit ("\"".toList), .cls (fun c => c != '>'), .lit (">".toList)]
        ((' ':: 's':: 'r':: 'c':: '=':: '"'::
          (U ++ '"':: ' ':: 'a':: 'l':: 't':: '=':: '"'::(A ++ '"':: '>'::rest))).drop i) = none := by
  intro i hi1 hi2
  have hU' : ∀ c ∈ U, c ≠ '=' ∧ c ≠ '"' := clean_sub hU
  have hA' : ∀ c ∈ A, c ≠ '=' ∧ c ≠ '"' := clean_sub hA
  by_cases h5 : i ≤ 5
  · interval_cases i
    · exact seqMatch_lit_neg rfl
    · exact seqMatch_lit_neg rfl
    · exact seqMatch_lit_neg rfl
    · exact seqMatch_lit_neg rfl
  · by_cases h6 : i ≤ U.length + 6
    · obtain ⟨j, rfl⟩ : ∃ j, i = j + 6 := ⟨i - 6, by omega⟩
      have hdrop : ((' ':: 's':: 'r':: 'c':: '=':: '"'::
          (U ++ '"':: ' ':: 'a':: 'l':: 't':: '=':: '"'::(A ++ '"':: '>'::rest))).drop (j + 6)) =
          (U ++ '"':: ' ':: 'a':: 'l':: 't':: '=':: '"'::(A ++ '"':: '>'::rest)).drop j := rfl
      rw [hdrop, List.drop_append_of_le_length (by omega)]
      refine seqMatch_lit_neg ?_
      exact @np5 's' 'r' 'c' (by decide) (by decide) (by decide)
        (U.drop j) _ (fun c hc => hU' c (List.mem_of_mem_drop hc))
    · by_cases h12 : i ≤ U.length + 12
      · obtain ⟨m, hm1, hm2, rfl⟩ : ∃ m, 1 ≤ m ∧ m ≤ 6 ∧ i = (U.length + m) + 6 :=
          ⟨i - 6 - U.length, by omega, by omega, by omega⟩
        have hdrop : ((' ':: 's':: 'r':: 'c':: '=':: '"'::
            (U ++ '"':: ' ':: 'a':: 'l':: 't':: '=':: '"'::(A ++ '"':: '>'::rest))).drop
              ((U.length + m) + 6)) =
            ('"':: ' ':: 'a':: 'l':: 't':: '=':: '"'::(A ++ '"':: '>'::rest)).drop m := by
          have h1 : ((' ':: 's':: 'r':: 'c':: '=':: '"'::
              (U ++ '"':: ' ':: 'a':: 'l':: 't':: '=':: '"'::(A ++ '"':: '>'::rest))).drop
                ((U.length + m) + 6)) =
              (U ++ '"':: ' ':: 'a':: 'l':: 't':: '=':: '"'::(A ++ '"':: '>'::rest)).drop
                (U.length + m) := rfl
          rw [h1, List.drop_append]
        rw [hdrop]
        interval_cases m
        · exact seqMatch_lit_neg rfl
        · exact seqMatch_lit_neg rfl
        · exact seqMatch_lit_neg rfl
        · exact seqMatch_lit_neg rfl
        · exact seqMatch_lit_neg rfl
        · exact seqMatch_lit_neg rfl
      · by_cases h13 : i ≤ U.length + A.length + 13
        · obtain ⟨j, hj, rfl⟩ : ∃ j, j ≤ A.length ∧ i = (U.length + (j + 7)) + 6 :=
            ⟨i - 13 - U.length, by omega, by omega⟩
          have hdrop : ((' ':: 's':: 'r':: 'c':: '=':: '"'::
              (U ++ '"':: ' ':: 'a':: 'l':: 't':: '=':: '"'::(A ++ '"':: '>'::rest))).drop
                ((U.length + (j + 7)) + 6)) = (A ++ '"':: '>'::rest).drop j := by
            have h1 : ((' ':: 's':: 'r':: 'c':: '=':: '"'::
                (U ++ '"':: ' ':: 'a':: 'l':: 't':: '=':: '"'::(A ++ '"':: '>'::rest))).drop
                  ((U.length + (j + 7)) + 6)) =
                (U ++ '"':: ' ':: 'a':: 'l':: 't':: '=':: '"'::(A ++ '"':: '>'::rest)).drop
                  (U.length + (j + 7)) := rfl
            rw [h1, List.drop_append]
            rfl
          rw [hdrop, List.drop_append_of_le_length hj]
          refine seqMatch_lit_neg ?_
          exact @np5 's' 'r' 'c' (by decide) (by decide) (by decide)
            (A.drop j) _ (fun c hc => hA' c (List.mem_of_mem_drop hc))
        · have hi : i = (U.length + ((A.length + 1) + 7)) + 6 := by omega
          subst hi
          have hdrop : ((' ':: 's':: 'r':: 'c':: '=':: '"'::
              (U ++ '"':: ' ':: 'a':: 'l':: 't':: '=':: '"'::(A ++ '"':: '>'::rest))).drop
                ((U.length + ((A.length + 1) + 7)) + 6)) = '>'::rest := by
            have h1 : ((' ':: 's':: 'r':: 'c':: '=':: '"'::
                (U ++ '"':: ' ':: 'a':: 'l':: 't':: '=':: '"'::(A ++ '"':: '>'::rest))).drop
                  ((U.length + ((A.length + 1) + 7)) + 6)) =
                (U ++ '"':: ' ':: 'a':: 'l':: 't':: '=':: '"'::(A ++ '"':: '>'::rest)).drop
                  (U.length + ((A.length + 1) + 7)) := rfl
            rw [h1, List.drop_append]
            have h2 : ('"':: ' ':: 'a':: 'l':: 't':: '=':: '"'::(A ++ '"':: '>'::rest)).drop
                ((A.length + 1) + 7) = (A ++ '"':: '>'::rest).drop (A.length + 1) := rfl
            rw [h2, List.drop_append]
            rfl
          rw [hdrop]
          exact seqMatch_lit_neg rfl

theorem seqMatch_grp (p : Char → Bool) (ps : List RElem) (s : List Char) :
    seqMatch (.grp p :: ps) s =
      (tryDrops (seqMatch ps) s (runLen p s)).map
        (fun r => (r.1 + r.2.1, s.take r.1 :: r.2.2)) := rfl

theorem seqMatch_cls (p : Char → Bool) (ps : List RElem) (s : List Char) :
    seqMatch (.cls p :: ps) s =
      (tryDrops (seqMatch ps) s (runLen p s)).map (fun r => (r.1 + r.2.1, r.2.2)) := rfl

/-- The image pattern, matched at a canonical image tag with clean
attribute values, consumes exactly the tag and captures exactly the two
attribute values, whatever the continuation text. -/
theorem seqMatch_img_at_tag (U A rest : List Char)
    (hU : ∀ c ∈ U, c ≠ '"' ∧ c ≠ '<' ∧ c ≠ '>' ∧ c ≠ '=')
    (hA : ∀ c ∈ A, c ≠ '"' ∧ c ≠ '<' ∧ c ≠ '>' ∧ c ≠ '=') :
    seqMatch P_img
      ('<':: 'i':: 'm':: 'g':: ' ':: 's':: 'r':: 'c':: '=':: '"'::
        (U ++ '"':: ' ':: 'a':: 'l':: 't':: '=':: '"'::(A ++ '"':: '>'::rest))) =
      some (U.length + A.length + 19, [U, A]) := by
  have hUngt : ∀ c ∈ U, (c != '>') = true := fun c hc => bne_iff_ne.mpr (hU c hc).2.2.1
  have hAngt : ∀ c ∈ A, (c != '>') = true := fun c hc => bne_iff_ne.mpr (hA c hc).2.2.1
  have hUnq : ∀ c ∈ U, (c != '"') = true := fun c hc => bne_iff_ne.mpr (hU c hc).1
  have hAnq : ∀ c ∈ A, (c != '"') = true := fun c hc => bne_iff_ne.mpr (hA c hc).1
  -- the region after the alt-value opening quote
  have stepA : seqMatch
      [.grp (fun c => c != '"'), .lit ("\"".toList), .cls (fun c => c != '>'),
        .lit (">".toList)] (A ++ '"':: '>'::rest) = some (A.length + 2, [A]) := by
    have hrl : runLen (fun c => c != '"') (A ++ '"':: '>'::rest) = A.length := by
      rw [runLen_append_all _ hAnq, runLen_cons_neg _ (by decide)]
      omega
    have hcont : seqMatch
        [.lit ("\"".toList), .cls (fun c => c != '>'), .lit (">".toList)]
        ((A ++ '"':: '>'::rest).drop A.length) = some (2, []) := by
      rw [List.drop_left]
      exact rfl
    rw [seqMatch_grp, hrl, tryDrops_top hcont]
    simp only [Option.map_some']
    rw [List.take_left]
  -- from the alt=" literal
  have stepB : seqMatch
      [.lit ("alt=\"".toList), .grp (fun c => c != '"'), .lit ("\"".toList),
        .cls (fun c => c != '>'), .lit (">".toList)]  ('a':: 'l':: 't':: '=':: '"'::(A ++ '"':: '>'::rest)) =
      some (A.length + 7, [A]) := by
    have hlit : litPref ("alt=\"".toList)
        ('a':: 'l':: 't':: '=':: '"'::(A ++ '"':: '>'::rest)) = true := rfl
    rw [seqMatch_lit_pos hlit]
    have hd : ('a':: 'l':: 't':: '=':: '"'::(A ++ '"':: '>'::rest)).drop
        (("alt=\"".toList).length) = A ++ '"':: '>'::rest := rfl
    rw [hd, stepA, Option.map_some']
    have hl5 : ("alt=\"".toList).length = 5 := rfl
    have : ("alt=\"".toList).length + (A.length + 2) = A.length + 7 := by omega
    rw [this]
  -- across the greedy class before alt="
  have stepC : seqMatch (.cls (fun c => c != '>') ::
      [.lit ("alt=\"".toList), .grp (fun c => c != '"'), .lit ("\"".toList),
        .cls (fun c => c != '>'), .lit (">".toList)])
      (' ':: 'a':: 'l':: 't':: '=':: '"'::(A ++ '"':: '>'::rest)) = some (A.length + 8, [A]) := by
    have hrl : runLen (fun c => c != '>')
        (' ':: 'a':: 'l':: 't':: '=':: '"'::(A ++ '"':: '>'::rest)) = A.length + 7 := by
      rw [runLen_cons_pos _ (by decide), runLen_cons_pos _ (by decide),
        runLen_cons_pos _ (by decide), runLen_cons_pos _ (by decide),
        runLen_cons_pos _ (by decide), runLen_cons_pos _ (by decide),
        runLen_append_all _ hAngt, runLen_cons_pos _ (by decide),
        runLen_cons_neg _ (by decide)]
    have htd : tryDrops (seqMatch
      [.lit ("alt=\"".toList), .grp (fun c => c != '"'), .lit ("\"".toList),
        .cls (fun c => c != '>'), .lit (">".toList)] )
        (' ':: 'a':: 'l':: 't':: '=':: '"'::(A ++ '"':: '>'::rest)) (A.length + 7) =
        some (1, A.length + 7, [A]) := by
      refine tryDrops_eq_of (by omega) ?_ (noAlt_obligation A rest hA)
      exact stepB
    rw [seqMatch_cls, hrl, htd]
    simp only [Option.map_some']
    have : 1 + (A.length + 7) = A.length + 8 := by omega
    rw [this]
  -- from the quote closing the src value
  have stepD : seqMatch (.lit ("\"".toList) :: .cls (fun c => c != '>') ::
      [.lit ("alt=\"".toList), .grp (fun c => c != '"'), .lit ("\"".toList),
        .cls (fun c => c != '>'), .lit (">".toList)])
      ('"':: ' ':: 'a':: 'l':: 't':: '=':: '"'::(A ++ '"':: '>'::rest)) =
      some (A.length + 9, [A]) := by
    have hlit : litPref ("\"".toList)
        ('"':: ' ':: 'a':: 'l':: 't':: '=':: '"'::(A ++ '"':: '>'::rest)) = true := rfl
    rw [seqMatch_lit_pos hlit]
    have hd : ('"':: ' ':: 'a':: 'l':: 't':: '=':: '"'::(A ++ '"':: '>'::rest)).drop
        (("\"".toList).length) = ' ':: 'a':: 'l':: 't':: '=':: '"'::(A ++ '"':: '>'::rest) := rfl
    rw [hd, stepC, Option.map_some']
    have hl1 : ("\"".toList).length = 1 := rfl
    have : ("\"".toList).length + (A.length + 8) = A.length + 9 := by omega
    rw [this]
  -- the src-value group
  have stepE : seqMatch
      (.grp (fun c => c != '"') :: .lit ("\"".toList) :: .cls (fun c => c != '>') ::
      [.lit ("alt=\"".toList), .grp (fun c => c != '"'), .lit ("\"".toList),
        .cls (fun c => c != '>'), .lit (">".toList)])
      (U ++ '"':: ' ':: 'a':: 'l':: 't':: '=':: '"'::(A ++ '"':: '>'::rest)) =
      some (U.length + (A.length + 9), [U, A]) := by
    have hrl : runLen (fun c => c != '"')
        (U ++ '"':: ' ':: 'a':: 'l':: 't':: '=':: '"'::(A ++ '"':: '>'::rest)) = U.length := by
      rw [runLen_append_all _ hUnq, runLen_cons_neg _ (by decide)]
      omega
    have hcont : seqMatch (.lit ("\"".toList) :: .cls (fun c => c != '>') ::
      [.lit ("alt=\"".toList), .grp (fun c => c != '"'), .lit ("\"".toList),
        .cls (fun c => c != '>'), .lit (">".toList)])
        ((U ++ '"':: ' ':: 'a':: 'l':: 't':: '=':: '"'::(A ++ '"':: '>'::rest)).drop U.length) =
        some (A.length + 9, [A]) := by
      rw [List.drop_left]
      exact stepD
    rw [seqMatch_grp, hrl, tryDrops_top hcont]
    simp only [Option.map_some']
    rw [List.take_left]
  -- from the src=" literal
  have stepF : seqMatch
      [.lit ("src=\"".toList), .grp (fun c => c != '"'), .lit ("\"".toList),
        .cls (fun c => c != '>'), .lit ("alt=\"".toList), .grp (fun c => c != '"'),
        .lit ("\"".toList), .cls (fun c => c != '>'), .lit (">".toList)] 
      ('s':: 'r':: 'c':: '=':: '"'::
        (U ++ '"':: ' ':: 'a':: 'l':: 't':: '=':: '"'::(A ++ '"':: '>'::rest))) =
      some (U.length + A.length + 14, [U, A]) := by
    have hlit : litPref ("src=\"".toList)
        ('s':: 'r':: 'c':: '=':: '"'::
          (U ++ '"':: ' ':: 'a':: 'l':: 't':: '=':: '"'::(A ++ '"':: '>'::rest))) = true := rfl
    rw [seqMatch_lit_pos hlit]
    have hd : ('s':: 'r':: 'c':: '=':: '"'::
        (U ++ '"':: ' ':: 'a':: 'l':: 't':: '=':: '"'::(A ++ '"':: '>'::rest))).drop
        (("src=\"".toList).length) =
        U ++ '"':: ' ':: 'a':: 'l':: 't':: '=':: '"'::(A ++ '"':: '>'::rest) := rfl
    rw [hd, stepE, Option.map_some']
    have hl5 : ("src=\"".toList).length = 5 := rfl
    have : ("src=\"".toList).length + (U.length + (A.length + 9)) =
        U.length + A.length + 14 := by omega
    rw [this]
  -- across the greedy class after <img
  have stepG : seqMatch (.cls (fun c => c != '>') ::
      [.lit ("src=\"".toList), .grp (fun c => c != '"'), .lit ("\"".toList),
        .cls (fun c => c != '>'), .lit ("alt=\"".toList), .grp (fun c => c != '"'),
        .lit ("\"".toList), .cls (fun c => c != '>'), .lit (">".toList)])
      (' ':: 's':: 'r':: 'c':: '=':: '"'::
        (U ++ '"':: ' ':: 'a':: 'l':: 't':: '=':: '"'::(A ++ '"':: '>'::rest))) =
      some (U.length + A.length + 15, [U, A]) := by
    have hrl : runLen (fun c => c != '>')
        (' ':: 's':: 'r':: 'c':: '=':: '"'::
          (U ++ '"':: ' ':: 'a':: 'l':: 't':: '=':: '"'::(A ++ '"':: '>'::rest))) =
        U.length + A.length + 14 := by
      rw [runLen_cons_pos _ (by decide), runLen_cons_pos _ (by decide),
        runLen_cons_pos _ (by decide), runLen_cons_pos _ (by decide),
        runLen_cons_pos _ (by decide), runLen_cons_pos _ (by decide),
        runLen_append_all _ hUngt, runLen_cons_pos _ (by decide),
        runLen_cons_pos _ (by decide), runLen_cons_pos _ (by decide),
        runLen_cons_pos _ (by decide), runLen_cons_pos _ (by decide),
        runLen_cons_pos _ (by decide), runLen_cons_pos _ (by decide),
        runLen_append_all _ hAngt, runLen_cons_pos _ (by decide),
        runLen_cons_neg _ (by decide)]
      omega
    have hstepF : seqMatch
      [.lit ("src=\"".toList), .grp (fun c => c != '"'), .lit ("\"".toList),
        .cls (fun c => c != '>'), .lit ("alt=\"".toList), .grp (fun c => c != '"'),
        .lit ("\"".toList), .cls (fun c => c != '>'), .lit (">".toList)] 
        ((' ':: 's':: 'r':: 'c':: '=':: '"'::
          (U ++ '"':: ' ':: 'a':: 'l':: 't':: '=':: '"'::(A ++ '"':: '>'::rest))).drop 1) =
        some (U.length + A.length + 14, [U, A]) := stepF
    have htd : tryDrops (seqMatch
      [.lit ("src=\"".toList), .grp (fun c => c != '"'), .lit ("\"".toList),
        .cls (fun c => c != '>'), .lit ("alt=\"".toList), .grp (fun c => c != '"'),
        .lit ("\"".toList), .cls (fun c => c != '>'), .lit (">".toList)] )
        (' ':: 's':: 'r':: 'c':: '=':: '"'::
          (U ++ '"':: ' ':: 'a':: 'l':: 't':: '=':: '"'::(A ++ '"':: '>'::rest)))
        (U.length + A.length + 14) =
        some (1, U.length + A.length + 14, [U, A]) :=
      tryDrops_eq_of (by omega) hstepF (noSrc_obligation U A rest hU hA)
    rw [seqMatch_cls, hrl, htd]
    simp only [Option.map_some']
    have : 1 + (U.length + A.length + 14) = U.length + A.length + 15 := by omega
    rw [this]
  -- the leading <img literal
  have hlit : litPref ("<img".toList)
      ('<':: 'i':: 'm':: 'g':: ' ':: 's':: 'r':: 'c':: '=':: '"'::
        (U ++ '"':: ' ':: 'a':: 'l':: 't':: '=':: '"'::(A ++ '"':: '>'::rest))) = true := rfl
  simp only [P_img]
  rw [seqMatch_lit_pos hlit]
  have hd : ('<':: 'i':: 'm':: 'g':: ' ':: 's':: 'r':: 'c':: '=':: '"'::
      (U ++ '"':: ' ':: 'a':: 'l':: 't':: '=':: '"'::(A ++ '"':: '>'::rest))).drop
      (("<img".toList).length) =
      ' ':: 's':: 'r':: 'c':: '=':: '"'::
        (U ++ '"':: ' ':: 'a':: 'l':: 't':: '=':: '"'::(A ++ '"':: '>'::rest)) := rfl
  rw [hd, stepG, Option.map_some']
  have hl4 : ("<img".toList).length = 4 := rfl
  have : ("<img".toList).length + (U.length + A.length + 15) = U.length + A.length + 19 := by
    omega
  rw [this]

theorem toList_append (s t : String) : (s ++ t).toList = s.toList ++ t.toList := rfl

/-- The canonical tag (with continuation) in explicit list form. -/
theorem mkImg_toList_append (u a : String) (t : List Char) :
    (mkImg u a).toList ++ t =
      '<':: 'i':: 'm':: 'g':: ' ':: 's':: 'r':: 'c':: '=':: '"'::
        (u.toList ++ '"':: ' ':: 'a':: 'l':: 't':: '=':: '"'::(a.toList ++ '"':: '>'::t)) := by
  simp only [mkImg, toList_append, List.append_assoc]
  rfl

theorem mkImg_toList (u a : String) :
    (mkImg u a).toList =
      '<':: 'i':: 'm':: 'g':: ' ':: 's':: 'r':: 'c':: '=':: '"'::
        (u.toList ++ '"':: ' ':: 'a':: 'l':: 't':: '=':: '"'::(a.toList ++ '"':: '>'::[])) := by
  have := mkImg_toList_append u a []
  simpa using this

theorem seqMatch_P_img_nil : seqMatch P_img [] = none := by
  simp only [P_img]
  exact seqMatch_lit_neg rfl

theorem seqMatch_P_img_head_ne {c : Char} (t : List Char) (h : c ≠ '<') :
    seqMatch P_img (c :: t) = none := by
  simp only [P_img]
  exact seqMatch_lit_neg (litPref_cons_ne _ _ (fun he => h he.symm))

theorem seqMatch_P_img_all_none {s : List Char} (h : ∀ c ∈ s, c ≠ '<') :
    ∀ k, seqMatch P_img (s.drop k) = none := by
  intro k
  cases hd : s.drop k with
  | nil => exact seqMatch_P_img_nil
  | cons c t =>
    have hc : c ∈ s := List.mem_of_mem_drop (hd ▸ List.mem_cons_self c t)
    exact seqMatch_P_img_head_ne t (h c hc)

theorem seqMatch_P_figure_nil : seqMatch P_figure [] = none := by
  simp only [P_figure]
  exact seqMatch_lit_neg rfl

theorem seqMatch_P_figure_head_ne {c : Char} (t : List Char) (h : c ≠ '<') :
    seqMatch P_figure (c :: t) = none := by
  simp only [P_figure]
  exact seqMatch_lit_neg (litPref_cons_ne _ _ (fun he => h he.symm))

theorem seqMatch_P_figure_all_none {s : List Char} (h : ∀ c ∈ s, c ≠ '<') :
    ∀ k, seqMatch P_figure (s.drop k) = none := by
  intro k
  cases hd : s.drop k with
  | nil => exact seqMatch_P_figure_nil
  | cons c t =>
    have hc : c ∈ s := List.mem_of_mem_drop (hd ▸ List.mem_cons_self c t)
    exact seqMatch_P_figure_head_ne t (h c hc)

/-- Substitution passes over `<`-free text unchanged. -/
theorem reSubL_P_img_append_ltFree (f : List Char → List (List Char) → List Char) :
    ∀ (t rest : List Char), (∀ c ∈ t, c ≠ '<') →
      reSubL P_img f (t ++ rest) = t ++ reSubL P_img f rest := by
  intro t
  induction t with
  | nil => intro rest _; simp
  | cons c t' ih =>
    intro rest h
    have hce : seqMatch P_img (c :: (t' ++ rest)) = none :=
      seqMatch_P_img_head_ne _ (h c (by simp))
    rw [List.cons_append, reSubL_cons_none hce, ih rest (fun d hd => h d (by simp [hd]))]
    rfl

/-- The substitution replaces a canonical tag (in explicit list form) by
`f` applied to the tag and its two attribute values, then continues. -/
theorem reSubL_P_img_at_tag (f : List Char → List (List Char) → List Char)
    (U A rest : List Char)
    (hU : ∀ c ∈ U, c ≠ '"' ∧ c ≠ '<' ∧ c ≠ '>' ∧ c ≠ '=')
    (hA : ∀ c ∈ A, c ≠ '"' ∧ c ≠ '<' ∧ c ≠ '>' ∧ c ≠ '=') :
    reSubL P_img f
      ('<':: 'i':: 'm':: 'g':: ' ':: 's':: 'r':: 'c':: '=':: '"'::
        (U ++ '"':: ' ':: 'a':: 'l':: 't':: '=':: '"'::(A ++ '"':: '>'::rest))) =
      f ('<':: 'i':: 'm':: 'g':: ' ':: 's':: 'r':: 'c':: '=':: '"'::
          (U ++ '"':: ' ':: 'a':: 'l':: 't':: '=':: '"'::(A ++ '"':: '>'::[]))) [U, A] ++
        reSubL P_img f rest := by
  have hm := seqMatch_img_at_tag U A rest hU hA
  have hn : 0 < U.length + A.length + 19 := by omega
  rw [reSubL_cons_some hm hn]
  have hsplit : U.length + A.length + 19 = (U.length + ((A.length + 2) + 7)) + 10 := by omega
  have htake : ('<':: 'i':: 'm':: 'g':: ' ':: 's':: 'r':: 'c':: '=':: '"'::
      (U ++ '"':: ' ':: 'a':: 'l':: 't':: '=':: '"'::(A ++ '"':: '>'::rest))).take
      (U.length + A.length + 19) =
      '<':: 'i':: 'm':: 'g':: ' ':: 's':: 'r':: 'c':: '=':: '"'::
        (U ++ '"':: ' ':: 'a':: 'l':: 't':: '=':: '"'::(A ++ '"':: '>'::[])) := by
    rw [hsplit]
    have h1 : ('<':: 'i':: 'm':: 'g':: ' ':: 's':: 'r':: 'c':: '=':: '"'::
        (U ++ '"':: ' ':: 'a':: 'l':: 't':: '=':: '"'::(A ++ '"':: '>'::rest))).take
        ((U.length + ((A.length + 2) + 7)) + 10) =
        '<':: 'i':: 'm':: 'g':: ' ':: 's':: 'r':: 'c':: '=':: '"'::
          ((U ++ '"':: ' ':: 'a':: 'l':: 't':: '=':: '"'::(A ++ '"':: '>'::rest)).take
            (U.length + ((A.length + 2) + 7))) := rfl
    rw [h1, List.take_append]
    have h2 : ('"':: ' ':: 'a':: 'l':: 't':: '=':: '"'::(A ++ '"':: '>'::rest)).take
        ((A.length + 2) + 7) =
        '"':: ' ':: 'a':: 'l':: 't':: '=':: '"'::((A ++ '"':: '>'::rest).take (A.length + 2)) := rfl
    rw [h2, List.take_append]
    rfl
  have hdrop : ('<':: 'i':: 'm':: 'g':: ' ':: 's':: 'r':: 'c':: '=':: '"'::
      (U ++ '"':: ' ':: 'a':: 'l':: 't':: '=':: '"'::(A ++ '"':: '>'::rest))).drop
      (U.length + A.length + 19) = rest := by
    rw [hsplit]
    have h1 : ('<':: 'i':: 'm':: 'g':: ' ':: 's':: 'r':: 'c':: '=':: '"'::
        (U ++ '"':: ' ':: 'a':: 'l':: 't':: '=':: '"'::(A ++ '"':: '>'::rest))).drop
        ((U.length + ((A.length + 2) + 7)) + 10) =
        (U ++ '"':: ' ':: 'a':: 'l':: 't':: '=':: '"'::(A ++ '"':: '>'::rest)).drop
          (U.length + ((A.length + 2) + 7)) := rfl
    rw [h1, List.drop_append]
    have h2 : ('"':: ' ':: 'a':: 'l':: 't':: '=':: '"'::(A ++ '"':: '>'::rest)).drop
        ((A.length + 2) + 7) = (A ++ '"':: '>'::rest).drop (A.length + 2) := rfl
    rw [h2, List.drop_append]
    rfl
  rw [htake, hdrop]

/-- `replace_figure` on a two-group list, with the match made explicit. -/
theorem replace_figure_eq (d : List (String × ImgInfo)) (U A : List Char) :
    replace_figure d [U, A] =
      match lookupD d (String.mk U) with
      | some info =>
        if info.filename = "example-image-a" then
          ("![".toList) ++ A ++ ("](example-image-a)".toList)
        else
          ("![".toList) ++ A ++ ("](".toList) ++ info.path.toList ++ (")".toList)
      | none => ("[Image: ".toList) ++ A ++ ("]".toList) := rfl

/-- The characters a `replace_figure` result can contain: fixed scaffold
characters, the alt text, and (for a resolved asset) the mapping path. -/
theorem replace_figure_chars {d : List (String × ImgInfo)} {U A : List Char} {c : Char}
    (hA : ∀ ch ∈ A, ch ≠ '<')
    (hpath : ∀ e ∈ d, ∀ ch ∈ e.2.path.toList, ch ≠ '<')
    (hc : c ∈ replace_figure d [U, A]) : c ≠ '<' := by
  rw [replace_figure_eq] at hc
  cases hl : lookupD d (String.mk U) with
  | some info =>
    simp only [hl] at hc
    have hinfo : ∀ ch ∈ info.path.toList, ch ≠ '<' := by
      simp only [lookupD, Option.map_eq_some'] at hl
      obtain ⟨e, he, hee⟩ := hl
      have hmem := List.mem_of_find?_eq_some he
      intro ch hch
      exact hpath e hmem ch (by rw [hee]; exact hch)
    by_cases hf : info.filename = "example-image-a"
    · rw [if_pos hf] at hc
      simp only [List.mem_append] at hc
      rcases hc with (hc | hc) | hc
      · intro he; subst he; exact absurd hc (by decide)
      · exact hA c hc
      · intro he; subst he; exact absurd hc (by decide)
    · rw [if_neg hf] at hc
      simp only [List.mem_append] at hc
      rcases hc with (((hc | hc) | hc) | hc) | hc
      · intro he; subst he; exact absurd hc (by decide)
      · exact hA c hc
      · intro he; subst he; exact absurd hc (by decide)
      · exact hinfo c hc
      · intro he; subst he; exact absurd hc (by decide)
  | none =>
    simp only [hl] at hc
    simp only [List.mem_append] at hc
    rcases hc with (hc | hc) | hc
    · intro he; subst he; exact absurd hc (by decide)
    · exact hA c hc
    · intro he; subst he; exact absurd hc (by decide)

/-- C1: the spec's invariant fails — an embedded-image construct whose tag
lacks an `alt` attribute survives the sanitizer verbatim even though a
nonempty asset mapping is supplied: the output body still contains
`<img`. -/
theorem C1_counterexample :
    insert_metadata docNoAlt mdSample (some dlNoAlt) =
      "---\nauthor: A\ndate: D\neditor: E\ntitle: T\nurl: U\n---\n\n" ++ docNoAlt ∧
    containsSeq ("<img".toList) (insert_metadata docNoAlt mdSample (some dlNoAlt)).toList
      = true := by
  exact ⟨rfl, by decide⟩

/-- C1 (amended): for a canonical src-before-alt construct with
structurally clean attribute values, embedded in `<`-free context, with
every mapping path `<`-free, the sanitizer's asset-substitution step
replaces the construct by exactly `replace_figure` of its groups — which
is exactly one of the three spec forms (resolved reference, placeholder
reference, or textual fallback) — and no embedded-image construct remains
in the result. -/
theorem C1_amended (t₁ t₂ u a : String) (d : List (String × ImgInfo))
    (h₁ : ∀ c ∈ t₁.toList, c ≠ '<') (h₂ : ∀ c ∈ t₂.toList, c ≠ '<')
    (hU : cleanAttr u.toList = true) (hA : cleanAttr a.toList = true)
    (hpath : ∀ e ∈ d, ∀ ch ∈ e.2.path.toList, ch ≠ '<') :
    assetSub d (t₁ ++ mkImg u a ++ t₂).toList =
      t₁.toList ++ (replace_figure d [u.toList, a.toList] ++ t₂.toList) ∧
    ((∃ info, lookupD d u = some info ∧ info.filename = "example-image-a" ∧
        replace_figure d [u.toList, a.toList] =
          "![".toList ++ a.toList ++ "](example-image-a)".toList) ∨
     (∃ info, lookupD d u = some info ∧ info.filename ≠ "example-image-a" ∧
        replace_figure d [u.toList, a.toList] =
          "![".toList ++ a.toList ++ "](".toList ++ info.path.toList ++ ")".toList) ∨
     (lookupD d u = none ∧
        replace_figure d [u.toList, a.toList] = "[Image: ".toList ++ a.toList ++ "]".toList)) ∧
    reFindL P_img (assetSub d (t₁ ++ mkImg u a ++ t₂).toList) = [] := by
  have hUc := cleanAttr_spec hU
  have hAc := cleanAttr_spec hA
  have hUlt : ∀ c ∈ u.toList, c ≠ '<' := fun c hc => (hUc c hc).2.1
  have hAlt : ∀ c ∈ a.toList, c ≠ '<' := fun c hc => (hAc c hc).2.1
  have hsplit : (t₁ ++ mkImg u a ++ t₂).toList =
      t₁.toList ++ ((mkImg u a).toList ++ t₂.toList) := by
    rw [toList_append, toList_append, List.append_assoc]
  have hmk := mkImg_toList_append u a t₂.toList
  have hinner : reSubL P_img (fun _ gs => replace_figure d gs)
      (t₁ ++ mkImg u a ++ t₂).toList =
      t₁.toList ++ (replace_figure d [u.toList, a.toList] ++ t₂.toList) := by
    rw [hsplit, reSubL_P_img_append_ltFree _ _ _ h₁, hmk,
      reSubL_P_img_at_tag _ _ _ _ hUc hAc,
      reSubL_id_of_all_none _ (seqMatch_P_img_all_none h₂)]
  have hout : ∀ c ∈ t₁.toList ++ (replace_figure d [u.toList, a.toList] ++ t₂.toList),
      c ≠ '<' := by
    intro c hc
    rcases List.mem_append.mp hc with hc | hc
    · exact h₁ c hc
    rcases List.mem_append.mp hc with hc | hc
    · exact replace_figure_chars hAlt hpath hc
    · exact h₂ c hc
  have hsub : assetSub d (t₁ ++ mkImg u a ++ t₂).toList =
      t₁.toList ++ (replace_figure d [u.toList, a.toList] ++ t₂.toList) := by
    rw [assetSub, hinner]
    exact reSubL_id_of_all_none _ (seqMatch_P_figure_all_none hout)
  refine ⟨hsub, ?_, ?_⟩
  · rw [replace_figure_eq]
    cases hl : lookupD d (String.mk u.toList) with
    | some info =>
      by_cases hf : info.filename = "example-image-a"
      · exact .inl ⟨info, hl, hf, by simp only [hl, if_pos hf]⟩
      · exact .inr (.inl ⟨info, hl, hf, by simp only [hl, if_neg hf, List.append_assoc]⟩)
    | none => exact .inr (.inr ⟨hl, by simp only [hl]⟩)
  · rw [hsub]
    exact reFindL_nil_of_all_none _ (seqMatch_P_img_all_none hout)

/-- C1 amended-theorem witness: a concrete instantiation with a resolved
asset. -/
theorem C1_witness :
    assetSub dlNoAlt ("x " ++ mkImg "https://a.test/b.jpg" "Cat" ++ " y").toList =
      "x ".toList ++ (replace_figure dlNoAlt
        ["https://a.test/b.jpg".toList, "Cat".toList] ++ " y".toList) ∧
    reFindL P_img (assetSub dlNoAlt
      ("x " ++ mkImg "https://a.test/b.jpg" "Cat" ++ " y").toList) = [] := by
  have h := C1_amended "x " " y" "https://a.test/b.jpg" "Cat" dlNoAlt
    (by decide) (by decide) (by decide) (by decide) (by decide)
  exact ⟨h.1, h.2.2⟩

/-- After `src="` has been consumed, if the quoted value is immediately
followed by `">` (so no `alt` attribute lies ahead), the remainder of the
image pattern cannot match. -/
theorem grpAfterSrc_none (PS : List RElem) (U rest : List Char)
    (hU : ∀ c ∈ U, c ≠ '"') :
    seqMatch (.grp (fun c => c != '"') :: .lit ("\"".toList) :: .cls (fun c => c != '>') ::
      .lit ("alt=\"".toList) :: PS) (U ++ '"':: '>'::rest) = none := by
  rw [seqMatch_grp]
  have hrun : runLen (fun c => c != '"') (U ++ '"':: '>'::rest) = U.length := by
    rw [runLen_append_all _ (fun c hc => bne_iff_ne.mpr (hU c hc)),
      runLen_cons_neg _ (by decide)]
    omega
  have hnone : tryDrops
      (seqMatch (.lit ("\"".toList) :: .cls (fun c => c != '>') ::
        .lit ("alt=\"".toList) :: PS)) (U ++ '"':: '>'::rest) U.length = none := by
    apply tryDrops_none
    intro i hi
    rcases Nat.lt_or_ge U.length i with hgt | hge
    · omega
    rcases Nat.lt_or_ge i U.length with hlt | hge'
    · rw [List.drop_append_of_le_length (Nat.le_of_lt hlt)]
      cases hd : U.drop i with
      | nil =>
        exfalso
        have := List.drop_eq_nil_iff.mp hd
        omega
      | cons c t =>
        rw [List.cons_append]
        have hc : c ∈ U := List.mem_of_mem_drop (hd ▸ List.mem_cons_self c t)
        exact seqMatch_lit_neg (litPref_cons_ne _ _ (fun he => hU c hc he.symm))
    · have hieq : i = U.length := Nat.le_antisymm hi hge'
      subst hieq
      rw [List.drop_left]
      have hlit : litPref ("\"".toList) ('"':: '>'::rest) = true := rfl
      rw [seqMatch_lit_pos hlit]
      have hd1 : ('"':: '>'::rest).drop (("\"".toList).length) = '>'::rest := rfl
      rw [hd1, seqMatch_cls]
      have hrun0 : runLen (fun c => c != '>') ('>'::rest) = 0 :=
        runLen_cons_neg _ (by decide)
      rw [hrun0]
      have hn0 : tryDrops (seqMatch (.lit ("alt=\"".toList) :: PS)) ('>'::rest) 0 = none := by
        apply tryDrops_none
        intro j hj
        have hj0 : j = 0 := Nat.le_zero.mp hj
        subst hj0
        exact seqMatch_lit_neg rfl
      rw [hn0]
      rfl
  rw [hrun, hnone]
  rfl

/-- The no-alt tag text in explicit list form. -/
theorem tagNoAlt_toList (u : String) :
    (tagNoAlt u).toList =
      '<':: 'i':: 'm':: 'g':: ' ':: 's':: 'r':: 'c':: '=':: '"'::(u.toList ++ '"':: '>'::[]) := by
  simp only [tagNoAlt, toList_append, List.append_assoc]
  rfl

/-- The alt-before-src tag text in explicit list form. -/
theorem tagAltFirst_toList (a u : String) :
    (tagAltFirst a u).toList =
      '<':: 'i':: 'm':: 'g':: ' ':: 'a':: 'l':: 't':: '=':: '"'::
        (a.toList ++ '"':: ' ':: 's':: 'r':: 'c':: '=':: '"'::(u.toList ++ '"':: '>'::[])) := by
  simp only [tagAltFirst, toList_append, List.append_assoc]
  rfl

/-- Every character after the leading `<` of a no-alt tag differs
from `<`. -/
theorem tagNoAlt_tail_clean (u : String) (hU : cleanAttr u.toList = true) :
    ∀ c ∈ ('i':: 'm':: 'g':: ' ':: 's':: 'r':: 'c':: '=':: '"'::
      (u.toList ++ '"':: '>'::([] : List Char))), c ≠ '<' := by
  intro c hc he
  subst he
  have hsh : ('i':: 'm':: 'g':: ' ':: 's':: 'r':: 'c':: '=':: '"'::
      (u.toList ++ '"':: '>'::([] : List Char))) =
      ("img src=\"".toList ++ (u.toList ++ "\">".toList)) := rfl
  rw [hsh] at hc
  rcases List.mem_append.mp hc with h | h
  · revert h; decide
  · rcases List.mem_append.mp h with h | h
    · exact ((cleanAttr_spec hU) '<' h).2.1 rfl
    · revert h; decide

/-- Every character after the leading `<` of an alt-before-src tag differs
from `<`. -/
theorem tagAltFirst_tail_clean (a u : String)
    (hA : cleanAttr a.toList = true) (hU : cleanAttr u.toList = true) :
    ∀ c ∈ ('i':: 'm':: 'g':: ' ':: 'a':: 'l':: 't':: '=':: '"'::
      (a.toList ++ '"':: ' ':: 's':: 'r':: 'c':: '=':: '"'::
        (u.toList ++ '"':: '>'::([] : List Char)))), c ≠ '<' := by
  intro c hc he
  subst he
  have hsh : ('i':: 'm':: 'g':: ' ':: 'a':: 'l':: 't':: '=':: '"'::
      (a.toList ++ '"':: ' ':: 's':: 'r':: 'c':: '=':: '"'::
        (u.toList ++ '"':: '>'::([] : List Char)))) =
      ("img alt=\"".toList ++ (a.toList ++
        ("\" src=\"".toList ++ (u.toList ++ "\">".toList)))) := rfl
  rw [hsh] at hc
  rcases List.mem_append.mp hc with h | h
  · revert h; decide
  · rcases List.mem_append.mp h with h | h
    · exact ((cleanAttr_spec hA) '<' h).2.1 rfl
    · rcases List.mem_append.mp h with h | h
      · revert h; decide
      · rcases List.mem_append.mp h with h | h
        · exact ((cleanAttr_spec hU) '<' h).2.1 rfl
        · revert h; decide

/-- The image pattern matches nowhere in a no-alt tag. -/
theorem tagNoAlt_no_match (u : String) (hU : cleanAttr u.toList = true) :
    ∀ k, seqMatch P_img ((tagNoAlt u).toList.drop k) = none := by
  have hUc := cleanAttr_spec hU
  have hU' : ∀ c ∈ u.toList, c ≠ '=' ∧ c ≠ '"' := clean_sub hUc
  intro k
  rw [tagNoAlt_toList]
  cases k with
  | succ m =>
    have hd : ('<':: 'i':: 'm':: 'g':: ' ':: 's':: 'r':: 'c':: '=':: '"'::
        (u.toList ++ '"':: '>'::([] : List Char))).drop (m + 1) =
        ('i':: 'm':: 'g':: ' ':: 's':: 'r':: 'c':: '=':: '"'::
          (u.toList ++ '"':: '>'::([] : List Char))).drop m := rfl
    rw [hd]
    exact seqMatch_P_img_all_none (tagNoAlt_tail_clean u hU) m
  | zero =>
    simp only [P_img, List.drop_zero]
    have hlit : litPref ("<img".toList)
        ('<':: 'i':: 'm':: 'g':: ' ':: 's':: 'r':: 'c':: '=':: '"'::
          (u.toList ++ '"':: '>'::([] : List Char))) = true := rfl
    rw [seqMatch_lit_pos hlit]
    have hd4 : ('<':: 'i':: 'm':: 'g':: ' ':: 's':: 'r':: 'c':: '=':: '"'::
        (u.toList ++ '"':: '>'::([] : List Char))).drop (("<img".toList).length) =
        ' ':: 's':: 'r':: 'c':: '=':: '"'::(u.toList ++ '"':: '>'::([] : List Char)) := rfl
    rw [hd4, seqMatch_cls]
    have hrun : runLen (fun c => c != '>')
        (' ':: 's':: 'r':: 'c':: '=':: '"'::(u.toList ++ '"':: '>'::([] : List Char))) =
        u.toList.length + 7 := by
      have h1 : (' ':: 's':: 'r':: 'c':: '=':: '"'::(u.toList ++ '"':: '>'::([] : List Char))) =
          (" src=\"".toList ++ (u.toList ++ ('"':: '>'::[]))) := rfl
      rw [h1, runLen_append_all _ (by decide),
        runLen_append_all _ (fun c hc => bne_iff_ne.mpr (hUc c hc).2.2.1)]
      have h2 : runLen (fun c => c != '>') ('"':: '>'::([] : List Char)) = 1 := rfl
      have h3 : (" src=\"".toList).length = 6 := rfl
      rw [h2, h3]
      omega
    rw [hrun]
    have hall : ∀ i, i ≤ u.toList.length + 7 →
        seqMatch
          [.lit ("src=\"".toList), .grp (fun c => c != '"'), .lit ("\"".toList),
          .cls (fun c => c != '>'), .lit ("alt=\"".toList), .grp (fun c => c != '"'),
          .lit ("\"".toList), .cls (fun c => c != '>'), .lit (">".toList)]
          ((' ':: 's':: 'r':: 'c':: '=':: '"'::
            (u.toList ++ '"':: '>'::([] : List Char))).drop i) = none := by
      intro i hi
      by_cases h5 : i ≤ 5
      · interval_cases i
        · exact seqMatch_lit_neg rfl
        · have hd1 : ((' ':: 's':: 'r':: 'c':: '=':: '"'::
              (u.toList ++ '"':: '>'::([] : List Char)))).drop 1 =
              's':: 'r':: 'c':: '=':: '"'::(u.toList ++ '"':: '>'::([] : List Char)) := rfl
          rw [hd1]
          have hlit2 : litPref ("src=\"".toList)
              ('s':: 'r':: 'c':: '=':: '"'::(u.toList ++ '"':: '>'::([] : List Char))) =
              true := rfl
          rw [seqMatch_lit_pos hlit2]
          have hd5 : ('s':: 'r':: 'c':: '=':: '"'::
              (u.toList ++ '"':: '>'::([] : List Char))).drop (("src=\"".toList).length) =
              u.toList ++ '"':: '>'::([] : List Char) := rfl
          rw [hd5, grpAfterSrc_none _ _ _ (fun c hc => (hUc c hc).1)]
          rfl
        · exact seqMatch_lit_neg rfl
        · exact seqMatch_lit_neg rfl
        · exact seqMatch_lit_neg rfl
        · exact seqMatch_lit_neg rfl
      · by_cases h6 : i ≤ u.toList.length + 6
        · obtain ⟨j, rfl⟩ : ∃ j, i = j + 6 := ⟨i - 6, by omega⟩
          have hdrop : ((' ':: 's':: 'r':: 'c':: '=':: '"'::
              (u.toList ++ '"':: '>'::([] : List Char))).drop (j + 6)) =
              (u.toList ++ '"':: '>'::([] : List Char)).drop j := rfl
          rw [hdrop, List.drop_append_of_le_length (by omega)]
          refine seqMatch_lit_neg ?_
          exact @np5 's' 'r' 'c' (by decide) (by decide) (by decide)
            (u.toList.drop j) _ (fun c hc => hU' c (List.mem_of_mem_drop hc))
        · have hieq : i = (u.toList.length + 1) + 6 := by omega
          subst hieq
          have hdrop : ((' ':: 's':: 'r':: 'c':: '=':: '"'::
              (u.toList ++ '"':: '>'::([] : List Char))).drop
                ((u.toList.length + 1) + 6)) =
              (u.toList ++ '"':: '>'::([] : List Char)).drop (u.toList.length + 1) := rfl
          rw [hdrop, List.drop_append]
          exact seqMatch_lit_neg rfl
    rw [tryDrops_none hall]
    rfl

/-- The image pattern matches nowhere in an alt-before-src tag. -/
theorem tagAltFirst_no_match (a u : String)
    (hA : cleanAttr a.toList = true) (hU : cleanAttr u.toList = true) :
    ∀ k, seqMatch P_img ((tagAltFirst a u).toList.drop k) = none := by
  have hUc := cleanAttr_spec hU
  have hAc := cleanAttr_spec hA
  have hU' : ∀ c ∈ u.toList, c ≠ '=' ∧ c ≠ '"' := clean_sub hUc
  have hA' : ∀ c ∈ a.toList, c ≠ '=' ∧ c ≠ '"' := clean_sub hAc
  intro k
  rw [tagAltFirst_toList]
  cases k with
  | succ m =>
    have hd : ('<':: 'i':: 'm':: 'g':: ' ':: 'a':: 'l':: 't':: '=':: '"'::
        (a.toList ++ '"':: ' ':: 's':: 'r':: 'c':: '=':: '"'::
          (u.toList ++ '"':: '>'::([] : List Char)))).drop (m + 1) =
        ('i':: 'm':: 'g':: ' ':: 'a':: 'l':: 't':: '=':: '"'::
          (a.toList ++ '"':: ' ':: 's':: 'r':: 'c':: '=':: '"'::
            (u.toList ++ '"':: '>'::([] : List Char)))).drop m := rfl
    rw [hd]
    exact seqMatch_P_img_all_none (tagAltFirst_tail_clean a u hA hU) m
  | zero =>
    simp only [P_img, List.drop_zero]
    have hlit : litPref ("<img".toList)
        ('<':: 'i':: 'm':: 'g':: ' ':: 'a':: 'l':: 't':: '=':: '"'::
          (a.toList ++ '"':: ' ':: 's':: 'r':: 'c':: '=':: '"'::
            (u.toList ++ '"':: '>'::([] : List Char)))) = true := rfl
    rw [seqMatch_lit_pos hlit]
    have hd4 : ('<':: 'i':: 'm':: 'g':: ' ':: 'a':: 'l':: 't':: '=':: '"'::
        (a.toList ++ '"':: ' ':: 's':: 'r':: 'c':: '=':: '"'::
          (u.toList ++ '"':: '>'::([] : List Char)))).drop (("<img".toList).length) =
        ' ':: 'a':: 'l':: 't':: '=':: '"'::
          (a.toList ++ '"':: ' ':: 's':: 'r':: 'c':: '=':: '"'::
            (u.toList ++ '"':: '>'::([] : List Char))) := rfl
    rw [hd4, seqMatch_cls]
    have hrun : runLen (fun c => c != '>')
        (' ':: 'a':: 'l':: 't':: '=':: '"'::
          (a.toList ++ '"':: ' ':: 's':: 'r':: 'c':: '=':: '"'::
            (u.toList ++ '"':: '>'::([] : List Char)))) =
        a.toList.length + u.toList.length + 14 := by
      have h1 : (' ':: 'a':: 'l':: 't':: '=':: '"'::
          (a.toList ++ '"':: ' ':: 's':: 'r':: 'c':: '=':: '"'::
            (u.toList ++ '"':: '>'::([] : List Char)))) =
          (" alt=\"".toList ++ (a.toList ++
            ("\" src=\"".toList ++ (u.toList ++ ('"':: '>'::[]))))) := rfl
      rw [h1, runLen_append_all _ (by decide),
        runLen_append_all _ (fun c hc => bne_iff_ne.mpr (hAc c hc).2.2.1),
        runLen_append_all _ (by decide),
        runLen_append_all _ (fun c hc => bne_iff_ne.mpr (hUc c hc).2.2.1)]
      have h2 : runLen (fun c => c != '>') ('"':: '>'::([] : List Char)) = 1 := rfl
      have h3 : (" alt=\"".toList).length = 6 := rfl
      have h4 : ("\" src=\"".toList).length = 7 := rfl
      rw [h2, h3, h4]
      omega
    rw [hrun]
    have hall : ∀ i, i ≤ a.toList.length + u.toList.length + 14 →
        seqMatch
          [.lit ("src=\"".toList), .grp (fun c => c != '"'), .lit ("\"".toList),
          .cls (fun c => c != '>'), .lit ("alt=\"".toList), .grp (fun c => c != '"'),
          .lit ("\"".toList), .cls (fun c => c != '>'), .lit (">".toList)]
          ((' ':: 'a':: 'l':: 't':: '=':: '"'::
            (a.toList ++ '"':: ' ':: 's':: 'r':: 'c':: '=':: '"'::
              (u.toList ++ '"':: '>'::([] : List Char)))).drop i) = none := by
      intro i hi
      by_cases h5 : i ≤ 5
      · interval_cases i
        · exact seqMatch_lit_neg rfl
        · exact seqMatch_lit_neg rfl
        · exact seqMatch_lit_neg rfl
        · exact seqMatch_lit_neg rfl
        · exact seqMatch_lit_neg rfl
        · exact seqMatch_lit_neg rfl
      · by_cases h6 : i ≤ a.toList.length + 6
        · obtain ⟨j, rfl⟩ : ∃ j, i = j + 6 := ⟨i - 6, by omega⟩
          have hdrop : ((' ':: 'a':: 'l':: 't':: '=':: '"'::
              (a.toList ++ '"':: ' ':: 's':: 'r':: 'c':: '=':: '"'::
                (u.toList ++ '"':: '>'::([] : List Char)))).drop (j + 6)) =
              (a.toList ++ '"':: ' ':: 's':: 'r':: 'c':: '=':: '"'::
                (u.toList ++ '"':: '>'::([] : List Char))).drop j := rfl
          rw [hdrop, List.drop_append_of_le_length (by omega)]
          refine seqMatch_lit_neg ?_
          exact @np5 's' 'r' 'c' (by decide) (by decide) (by decide)
            (a.toList.drop j) _ (fun c hc => hA' c (List.mem_of_mem_drop hc))
        · by_cases h12 : i ≤ a.toList.length + 12
          · obtain ⟨m, hm1, hm2, rfl⟩ : ∃ m, 1 ≤ m ∧ m ≤ 6 ∧
                i = (a.toList.length + m) + 6 :=
              ⟨i - 6 - a.toList.length, by omega, by omega, by omega⟩
            have hdrop : ((' ':: 'a':: 'l':: 't':: '=':: '"'::
                (a.toList ++ '"':: ' ':: 's':: 'r':: 'c':: '=':: '"'::
                  (u.toList ++ '"':: '>'::([] : List Char)))).drop
                  ((a.toList.length + m) + 6)) =
                ('"':: ' ':: 's':: 'r':: 'c':: '=':: '"'::
                  (u.toList ++ '"':: '>'::([] : List Char))).drop m := by
              have h1 : ((' ':: 'a':: 'l':: 't':: '=':: '"'::
                  (a.toList ++ '"':: ' ':: 's':: 'r':: 'c':: '=':: '"'::
                    (u.toList ++ '"':: '>'::([] : List Char)))).drop
                    ((a.toList.length + m) + 6)) =
                  (a.toList ++ '"':: ' ':: 's':: 'r':: 'c':: '=':: '"'::
                    (u.toList ++ '"':: '>'::([] : List Char))).drop
                    (a.toList.length + m) := rfl
              rw [h1, List.drop_append]
            rw [hdrop]
            interval_cases m
            · exact seqMatch_lit_neg rfl
            · have hd2 : ('"':: ' ':: 's':: 'r':: 'c':: '=':: '"'::
                  (u.toList ++ '"':: '>'::([] : List Char))).drop 2 =
                  's':: 'r':: 'c':: '=':: '"'::(u.toList ++ '"':: '>'::([] : List Char)) := rfl
              rw [hd2]
              have hlit2 : litPref ("src=\"".toList)
                  ('s':: 'r':: 'c':: '=':: '"'::(u.toList ++ '"':: '>'::([] : List Char))) =
                  true := rfl
              rw [seqMatch_lit_pos hlit2]
              have hd5 : ('s':: 'r':: 'c':: '=':: '"'::
                  (u.toList ++ '"':: '>'::([] : List Char))).drop
                    (("src=\"".toList).length) =
                  u.toList ++ '"':: '>'::([] : List Char) := rfl
              rw [hd5, grpAfterSrc_none _ _ _ (fun c hc => (hUc c hc).1)]
              rfl
            · exact seqMatch_lit_neg rfl
            · exact seqMatch_lit_neg rfl
            · exact seqMatch_lit_neg rfl
            · exact seqMatch_lit_neg rfl
          · by_cases h13 : i ≤ a.toList.length + u.toList.length + 13
            · obtain ⟨j, hj, rfl⟩ : ∃ j, j ≤ u.toList.length ∧
                  i = (a.toList.length + (j + 7)) + 6 :=
                ⟨i - 13 - a.toList.length, by omega, by omega⟩
              have hdrop : ((' ':: 'a':: 'l':: 't':: '=':: '"'::
                  (a.toList ++ '"':: ' ':: 's':: 'r':: 'c':: '=':: '"'::
                    (u.toList ++ '"':: '>'::([] : List Char)))).drop
                    ((a.toList.length + (j + 7)) + 6)) =
                  (u.toList ++ '"':: '>'::([] : List Char)).drop j := by
                have h1 : ((' ':: 'a':: 'l':: 't':: '=':: '"'::
                    (a.toList ++ '"':: ' ':: 's':: 'r':: 'c':: '=':: '"'::
                      (u.toList ++ '"':: '>'::([] : List Char)))).drop
                      ((a.toList.length + (j + 7)) + 6)) =
                    (a.toList ++ '"':: ' ':: 's':: 'r':: 'c':: '=':: '"'::
                      (u.toList ++ '"':: '>'::([] : List Char))).drop
                      (a.toList.length + (j + 7)) := rfl
                rw [h1, List.drop_append]
                rfl
              rw [hdrop, List.drop_append_of_le_length hj]
              refine seqMatch_lit_neg ?_
              exact @np5 's' 'r' 'c' (by decide) (by decide) (by decide)
                (u.toList.drop j) _ (fun c hc => hU' c (List.mem_of_mem_drop hc))
            · have hieq : i = (a.toList.length + ((u.toList.length + 1) + 7)) + 6 := by
                omega
              subst hieq
              have hdrop : ((' ':: 'a':: 'l':: 't':: '=':: '"'::
                  (a.toList ++ '"':: ' ':: 's':: 'r':: 'c':: '=':: '"'::
                    (u.toList ++ '"':: '>'::([] : List Char)))).drop
                    ((a.toList.length + ((u.toList.length + 1) + 7)) + 6)) =
                  '>'::([] : List Char) := by
                have h1 : ((' ':: 'a':: 'l':: 't':: '=':: '"'::
                    (a.toList ++ '"':: ' ':: 's':: 'r':: 'c':: '=':: '"'::
                      (u.toList ++ '"':: '>'::([] : List Char)))).drop
                      ((a.toList.length + ((u.toList.length + 1) + 7)) + 6)) =
                    (a.toList ++ '"':: ' ':: 's':: 'r':: 'c':: '=':: '"'::
                      (u.toList ++ '"':: '>'::([] : List Char))).drop
                      (a.toList.length + ((u.toList.length + 1) + 7)) := rfl
                rw [h1, List.drop_append]
                have h2 : ('"':: ' ':: 's':: 'r':: 'c':: '=':: '"'::
                    (u.toList ++ '"':: '>'::([] : List Char))).drop
                      ((u.toList.length + 1) + 7) =
                    (u.toList ++ '"':: '>'::([] : List Char)).drop (u.toList.length + 1) := rfl
                rw [h2, List.drop_append]
                rfl
              rw [hdrop]
              exact seqMatch_lit_neg rfl
    rw [tryDrops_none hall]
    rfl

/-- The figure pattern matches nowhere in a no-alt tag. -/
theorem tagNoAlt_fig_none (u : String) (hU : cleanAttr u.toList = true) :
    ∀ k, seqMatch P_figure ((tagNoAlt u).toList.drop k) = none := by
  intro k
  rw [tagNoAlt_toList]
  cases k with
  | zero =>
    simp only [P_figure, List.drop_zero]
    exact seqMatch_lit_neg rfl
  | succ m =>
    have hd : ('<':: 'i':: 'm':: 'g':: ' ':: 's':: 'r':: 'c':: '=':: '"'::
        (u.toList ++ '"':: '>'::([] : List Char))).drop (m + 1) =
        ('i':: 'm':: 'g':: ' ':: 's':: 'r':: 'c':: '=':: '"'::
          (u.toList ++ '"':: '>'::([] : List Char))).drop m := rfl
    rw [hd]
    exact seqMatch_P_figure_all_none (tagNoAlt_tail_clean u hU) m

/-- The figure pattern matches nowhere in an alt-before-src tag. -/
theorem tagAltFirst_fig_none (a u : String)
    (hA : cleanAttr a.toList = true) (hU : cleanAttr u.toList = true) :
    ∀ k, seqMatch P_figure ((tagAltFirst a u).toList.drop k) = none := by
  intro k
  rw [tagAltFirst_toList]
  cases k with
  | zero =>
    simp only [P_figure, List.drop_zero]
    exact seqMatch_lit_neg rfl
  | succ m =>
    have hd : ('<':: 'i':: 'm':: 'g':: ' ':: 'a':: 'l':: 't':: '=':: '"'::
        (a.toList ++ '"':: ' ':: 's':: 'r':: 'c':: '=':: '"'::
          (u.toList ++ '"':: '>'::([] : List Char)))).drop (m + 1) =
        ('i':: 'm':: 'g':: ' ':: 'a':: 'l':: 't':: '=':: '"'::
          (a.toList ++ '"':: ' ':: 's':: 'r':: 'c':: '=':: '"'::
            (u.toList ++ '"':: '>'::([] : List Char)))).drop m := rfl
    rw [hd]
    exact seqMatch_P_figure_all_none (tagAltFirst_tail_clean a u hA hU) m

/-- C10: an embedded-image tag with alt before src, or with no alt
attribute at all, is invisible to both passes: the localizer's scan finds
no hit, the resulting mapping is empty, and the sanitizer's
asset-substitution step leaves the tag text unchanged. -/
theorem C10_theorem (a u slug : String) (ok : Nat → Bool)
    (d : List (String × ImgInfo))
    (hA : cleanAttr a.toList = true) (hU : cleanAttr u.toList = true) :
    imgFindall (tagAltFirst a u) = [] ∧
    imgFindall (tagNoAlt u) = [] ∧
    download_images (tagAltFirst a u) slug ok = [] ∧
    download_images (tagNoAlt u) slug ok = [] ∧
    assetSub d (tagAltFirst a u).toList = (tagAltFirst a u).toList ∧
    assetSub d (tagNoAlt u).toList = (tagNoAlt u).toList := by
  have h1 := tagAltFirst_no_match a u hA hU
  have h2 := tagNoAlt_no_match u hU
  have hf1 := tagAltFirst_fig_none a u hA hU
  have hf2 := tagNoAlt_fig_none u hU
  have e1 : reFindL P_img (tagAltFirst a u).toList = [] := reFindL_nil_of_all_none _ h1
  have e2 : reFindL P_img (tagNoAlt u).toList = [] := reFindL_nil_of_all_none _ h2
  have g1 : imgFindall (tagAltFirst a u) = [] := by
    simp only [imgFindall, e1, List.map_nil]
  have g2 : imgFindall (tagNoAlt u) = [] := by
    simp only [imgFindall, e2, List.map_nil]
  refine ⟨g1, g2, ?_, ?_, ?_, ?_⟩
  · simp only [download_images, g1]
    rfl
  · simp only [download_images, g2]
    rfl
  · simp only [assetSub, reSubL_id_of_all_none _ h1, reSubL_id_of_all_none _ hf1]
  · simp only [assetSub, reSubL_id_of_all_none _ h2, reSubL_id_of_all_none _ hf2]

/-- C10 witness: concrete attribute values. -/
theorem C10_witness :
    imgFindall (tagAltFirst "Cat" "https://x.test/a.png") = [] ∧
    download_images (tagNoAlt "https://x.test/a.png") "article" (fun _ => true) = [] ∧
    assetSub dlNoAlt (tagAltFirst "Cat" "https://x.test/a.png").toList =
      (tagAltFirst "Cat" "https://x.test/a.png").toList := by
  have h := C10_theorem "Cat" "https://x.test/a.png" "article" (fun _ => true) dlNoAlt
    (by decide) (by decide)
  exact ⟨h.1, h.2.2.2.1, h.2.2.2.2.1⟩

end Web2pdf
